import Mathlib

/-!
Verification of the onion-service descriptor codec specification.

The repository ships the unit-test file `test_hs_descriptor.c` for the
descriptor codec, but the codec implementation itself (`hs_descriptor.c`,
`torcert.c`) is not part of the source tree we were given.  Following the
spec (sections 3, 4 and 8), this development models the codec as executable
Lean definitions: the data model, the binary and textual grammars, the
padding and length rules, the certificate layer, and the validation
entry points.  The cryptographic primitives (Ed25519, SHA3, the stream
cipher, the KDF) are out of scope of the spec (section 1) and are modelled
as deterministic symbolic functions with the interface shape the codec
relies on.  All definitions are computable so that every theorem can be
instantiated on concrete inputs.

Byte strings are modelled as `List Nat` with each element intended to be
below 256; text is the same type, holding ASCII codes.
-/

set_option maxRecDepth 8000

/-! ## Constants (spec sections 4.1, 4.7, 8) -/

/-- Modelled from the spec: maximum descriptor length, 50 KiB (section 4.1). -/
def HS_DESC_MAX_LEN : Nat := 50000

/-- Modelled from the spec: salt length of the encrypted envelope (section 4.7). -/
def HS_DESC_ENCRYPTED_SALT_LEN : Nat := 16

/-- Modelled from the spec: MAC length of the encrypted envelope, a SHA3-256
digest (section 4.7). -/
def DIGEST256_LEN : Nat := 32

/-- Modelled from the spec: the padding quantum, 10000 bytes (section 3
invariant 3 and glossary). -/
def HS_DESC_PLAINTEXT_PADDING_MULTIPLE : Nat := 10000

/-- Modelled from the spec: maximum padded-plaintext length.  The spec pins
the padding quantum and the 50 KiB descriptor cap but not this constant;
we choose three padding quanta, which keeps a maximal encrypted blob
armorable under the 50 KiB cap. -/
def HS_DESC_PADDED_PLAINTEXT_MAX_LEN : Nat := 30000

/-- Modelled from the spec: minimal length of a valid encrypted blob:
salt, MAC and one padding quantum (sections 4.7 and 8 property 4). -/
def HS_DESC_ENCRYPTED_MIN_LEN : Nat :=
  HS_DESC_ENCRYPTED_SALT_LEN + DIGEST256_LEN + HS_DESC_PLAINTEXT_PADDING_MULTIPLE

/-- Modelled from the spec: inclusive lower bound of the supported
descriptor format versions.  The test suite fixes version 3 as supported
and 42 as unsupported; the supported range is the single version 3. -/
def HS_DESC_SUPPORTED_FORMAT_VERSION_MIN : Nat := 3

/-- Modelled from the spec: inclusive upper bound of the supported
descriptor format versions. -/
def HS_DESC_SUPPORTED_FORMAT_VERSION_MAX : Nat := 3

/-- Modelled from the spec: maximum descriptor lifetime in minutes
(section 4.1: lifetime positive and at most 720 minutes). -/
def HS_DESC_MAX_LIFETIME_MIN : Nat := 720

/-- Modelled from the spec: lifetime of the short-lived certificates the
encoder issues for introduction-point keys (section 4.3); the exact value
is not pinned by the spec, 36 hours in seconds is used. -/
def HS_DESC_CERT_LIFETIME : Nat := 36 * 60 * 60

/-! ## Claim C4: the version gate -/

/-- Modelled from the spec: `is_supported_version(v)` is true iff
`MIN <= v <= MAX` (section 6 operation 3, section 8 property 5). -/
def hs_desc_is_supported_version (v : Nat) : Bool :=
  if v < HS_DESC_SUPPORTED_FORMAT_VERSION_MIN then false
  else if HS_DESC_SUPPORTED_FORMAT_VERSION_MAX < v then false
  else true

/-- C4: `hs_desc_is_supported_version v` returns true exactly when
`MIN <= v <= MAX`; in particular it is false at `MIN - 1`, `MAX + 1`,
`0` and `42`, and true at `3`. -/
theorem hs_desc_is_supported_version_spec :
    (∀ v : Nat, hs_desc_is_supported_version v = true ↔
      (HS_DESC_SUPPORTED_FORMAT_VERSION_MIN ≤ v ∧
       v ≤ HS_DESC_SUPPORTED_FORMAT_VERSION_MAX)) ∧
    hs_desc_is_supported_version (HS_DESC_SUPPORTED_FORMAT_VERSION_MIN - 1) = false ∧
    hs_desc_is_supported_version (HS_DESC_SUPPORTED_FORMAT_VERSION_MAX + 1) = false ∧
    hs_desc_is_supported_version 0 = false ∧
    hs_desc_is_supported_version 42 = false ∧
    hs_desc_is_supported_version 3 = true := by
  refine ⟨?_, by decide, by decide, by decide, by decide, by decide⟩
  intro v
  simp only [hs_desc_is_supported_version, HS_DESC_SUPPORTED_FORMAT_VERSION_MIN,
    HS_DESC_SUPPORTED_FORMAT_VERSION_MAX]
  split
  · simp; omega
  · split
    · simp; omega
    · simp; omega

/-! ## Claim C2: envelope-length validity -/

/-- Modelled from the spec: the length validator for the encrypted blob
(section 4.7 last paragraph, section 8 property 4): a blob is valid when
it is at least salt + MAC + one quantum long, the part after salt and MAC
is a multiple of the quantum, and the whole does not exceed the configured
maximum. -/
def encrypted_data_length_is_valid (len : Nat) : Bool :=
  if len < HS_DESC_ENCRYPTED_MIN_LEN then false
  else if (len - HS_DESC_ENCRYPTED_SALT_LEN - DIGEST256_LEN) %
      HS_DESC_PLAINTEXT_PADDING_MULTIPLE ≠ 0 then false
  else if HS_DESC_PADDED_PLAINTEXT_MAX_LEN <
      len - HS_DESC_ENCRYPTED_SALT_LEN - DIGEST256_LEN then false
  else true

/-- C2: `encrypted_data_length_is_valid n` is true exactly when
`n >= 16 + 32 + 10000`, `(n - 16 - 32)` is a multiple of `10000` and `n`
does not exceed the configured maximum
(`HS_DESC_PADDED_PLAINTEXT_MAX_LEN + 16 + 32`); in particular it is false
at `0` and at `10 * 10000 - 1`, and true at
`HS_DESC_PADDED_PLAINTEXT_MAX_LEN + 16 + 32`. -/
theorem encrypted_data_length_is_valid_spec :
    (∀ n : Nat, encrypted_data_length_is_valid n = true ↔
      (16 + 32 + 10000 ≤ n ∧ (n - 16 - 32) % 10000 = 0 ∧
       n ≤ HS_DESC_PADDED_PLAINTEXT_MAX_LEN + 16 + 32)) ∧
    encrypted_data_length_is_valid 0 = false ∧
    encrypted_data_length_is_valid (10 * 10000 - 1) = false ∧
    encrypted_data_length_is_valid
      (HS_DESC_PADDED_PLAINTEXT_MAX_LEN + HS_DESC_ENCRYPTED_SALT_LEN +
       DIGEST256_LEN) = true := by
  refine ⟨?_, by decide, by decide, by decide⟩
  intro n
  simp only [encrypted_data_length_is_valid, HS_DESC_ENCRYPTED_MIN_LEN,
    HS_DESC_ENCRYPTED_SALT_LEN, DIGEST256_LEN, HS_DESC_PLAINTEXT_PADDING_MULTIPLE,
    HS_DESC_PADDED_PLAINTEXT_MAX_LEN]
  split
  · simp; omega
  · split
    · simp; omega
    · split
      · simp; omega
      · simp; omega

/-! ## Claim C3: the padding law -/

/-- Ceiling division, as the `CEIL_DIV` helper macro of the source tree. -/
def CEIL_DIV (a b : Nat) : Nat := (a + b - 1) / b

/-- Modelled from the spec: length of the plaintext after padding to the
next multiple of the padding quantum (section 4.7 step 1). -/
def compute_padded_plaintext_length (plaintext_len : Nat) : Nat :=
  CEIL_DIV plaintext_len HS_DESC_PLAINTEXT_PADDING_MULTIPLE *
    HS_DESC_PLAINTEXT_PADDING_MULTIPLE

/-- Modelled from the spec: `build_plaintext_padding` allocates a zeroed
buffer of the padded length and copies the plaintext into its beginning
(section 4.7 step 1: pad with zero bytes to the next multiple of the
padding quantum). -/
def build_plaintext_padding (plaintext : List Nat) : List Nat :=
  plaintext ++
    List.replicate (compute_padded_plaintext_length plaintext.length -
      plaintext.length) 0

theorem ceil_div_mul_ge (a b : Nat) (hb : 0 < b) : a ≤ CEIL_DIV a b * b := by
  rcases Nat.eq_zero_or_pos a with h | h
  · simp [h]
  · have hrw : a + b - 1 = (a - 1) + b := by omega
    have hdiv : (a - 1 + b) / b = (a - 1) / b + 1 := by
      rw [Nat.add_div_right _ hb]
    have hmod : (a - 1) / b * b + (a - 1) % b = a - 1 := Nat.div_add_mod' (a - 1) b
    have hlt : (a - 1) % b < b := Nat.mod_lt _ hb
    calc a ≤ (a - 1) / b * b + b := by omega
      _ = ((a - 1) / b + 1) * b := by ring
      _ = CEIL_DIV a b * b := by rw [CEIL_DIV, hrw, hdiv]

/-- C3: for every plaintext, the padded buffer produced by
`build_plaintext_padding` has length `ceil(L / 10000) * 10000`, that length
is at least the plaintext length, and every byte of the padded buffer at
offset `L` or beyond is zero. -/
theorem build_plaintext_padding_spec (plaintext : List Nat) :
    (build_plaintext_padding plaintext).length =
      CEIL_DIV plaintext.length HS_DESC_PLAINTEXT_PADDING_MULTIPLE *
        HS_DESC_PLAINTEXT_PADDING_MULTIPLE ∧
    plaintext.length ≤ (build_plaintext_padding plaintext).length ∧
    (build_plaintext_padding plaintext).drop plaintext.length =
      List.replicate ((build_plaintext_padding plaintext).length -
        plaintext.length) 0 := by
  have hge : plaintext.length ≤ compute_padded_plaintext_length plaintext.length :=
    ceil_div_mul_ge _ _ (by decide)
  have hlen : (build_plaintext_padding plaintext).length =
      compute_padded_plaintext_length plaintext.length := by
    simp [build_plaintext_padding]
    omega
  refine ⟨by simpa [compute_padded_plaintext_length] using hlen, by omega, ?_⟩
  rw [hlen, build_plaintext_padding, List.drop_left]

/-! ## Byte-string utilities

Text and binary data are both `List Nat`; `strB` turns an ASCII string
literal into its byte list. -/

/-- Byte list of an ASCII string literal. -/
def strB (s : String) : List Nat := s.data.map Char.toNat

/-- Drop an expected prefix, returning the remainder, or `none` when the
input does not start with the prefix. -/
def dropPrefix? : List Nat → List Nat → Option (List Nat)
  | [], l => some l
  | _ :: _, [] => none
  | p :: ps, c :: cs => if p = c then dropPrefix? ps cs else none

theorem dropPrefix?_append (p rest : List Nat) :
    dropPrefix? p (p ++ rest) = some rest := by
  induction p with
  | nil => rfl
  | cons a as ih => simp [dropPrefix?, ih]

/-- Split off exactly `n` leading elements, or fail when fewer remain. -/
def takeExact : Nat → List Nat → Option (List Nat × List Nat)
  | 0, l => some ([], l)
  | _ + 1, [] => none
  | n + 1, c :: cs =>
    match takeExact n cs with
    | some (xs, rest) => some (c :: xs, rest)
    | none => none

theorem takeExact_append (xs rest : List Nat) :
    takeExact xs.length (xs ++ rest) = some (xs, rest) := by
  induction xs with
  | nil => rfl
  | cons a as ih => simp [takeExact, ih]

/-- Split a byte list at every occurrence of the separator byte; the
result always has one more element than the number of separators. -/
def splitSep (sep : Nat) : List Nat → List (List Nat)
  | [] => [[]]
  | c :: rest =>
    if c = sep then [] :: splitSep sep rest
    else
      match splitSep sep rest with
      | l :: ls => (c :: l) :: ls
      | [] => [[c]]

theorem splitSep_ne_nil (sep : Nat) (l : List Nat) : splitSep sep l ≠ [] := by
  cases l with
  | nil => simp [splitSep]
  | cons c rest =>
    simp only [splitSep]
    split
    · simp
    · split <;> simp_all

theorem splitSep_of_not_mem (sep : Nat) (l : List Nat) (h : sep ∉ l) :
    splitSep sep l = [l] := by
  induction l with
  | nil => rfl
  | cons c rest ih =>
    simp only [List.mem_cons, not_or] at h
    obtain ⟨h1, h2⟩ := h
    have h1c : ¬(c = sep) := fun hc => h1 hc.symm
    simp only [splitSep, if_neg h1c, ih h2]

theorem splitSep_append (sep : Nat) (l rest : List Nat) (h : sep ∉ l) :
    splitSep sep (l ++ sep :: rest) = l :: splitSep sep rest := by
  induction l with
  | nil => simp [splitSep]
  | cons c cs ih =>
    simp only [List.mem_cons, not_or] at h
    obtain ⟨h1, h2⟩ := h
    have h1c : ¬(c = sep) := fun hc => h1 hc.symm
    simp only [List.cons_append, splitSep, if_neg h1c, List.append_eq, ih h2]

/-- Join lines: every line is emitted followed by a newline byte. -/
def joinLines (ls : List (List Nat)) : List Nat :=
  ls.flatMap (fun l => l ++ [10])

theorem joinLines_nil : joinLines [] = [] := rfl

theorem joinLines_cons (l : List Nat) (ls : List (List Nat)) :
    joinLines (l :: ls) = l ++ 10 :: joinLines ls := by
  simp [joinLines]

theorem splitSep_joinLines (ls : List (List Nat))
    (h : ∀ l ∈ ls, (10 : Nat) ∉ l) :
    splitSep 10 (joinLines ls) = ls ++ [[]] := by
  induction ls with
  | nil => rfl
  | cons l ls ih =>
    rw [joinLines_cons, splitSep_append 10 l _ (h l (by simp)),
      ih (fun x hx => h x (by simp [hx]))]
    rfl

theorem joinLines_append (xs ys : List (List Nat)) :
    joinLines (xs ++ ys) = joinLines xs ++ joinLines ys := by
  simp [joinLines]

/-- Join tokens with a single separator byte between neighbours. -/
def joinSep (sep : Nat) : List (List Nat) → List Nat
  | [] => []
  | [t] => t
  | t :: ts => t ++ sep :: joinSep sep ts

theorem splitSep_joinSep (sep : Nat) (ts : List (List Nat))
    (hne : ts ≠ []) (h : ∀ t ∈ ts, sep ∉ t) :
    splitSep sep (joinSep sep ts) = ts := by
  induction ts with
  | nil => simp at hne
  | cons t ts ih =>
    cases ts with
    | nil => exact splitSep_of_not_mem sep t (h t (by simp))
    | cons u us =>
      rw [show joinSep sep (t :: u :: us) = t ++ sep :: joinSep sep (u :: us)
        from rfl, splitSep_append sep t _ (h t (by simp)),
        ih (by simp) (fun x hx => h x (by simp [hx]))]

/-! ## Decimal integers (spec section 4.6) -/

/-- Decimal digits of `n`, most significant first, produced with the
customary divide-by-ten loop (fuel-based so that it computes by
structural recursion). -/
def natToDecAux : Nat → Nat → List Nat
  | 0, _ => []
  | fuel + 1, n =>
    if n < 10 then [48 + n]
    else natToDecAux fuel (n / 10) ++ [48 + n % 10]

/-- Render a natural number in decimal ASCII, no leading zeros. -/
def natToDec (n : Nat) : List Nat := natToDecAux (n + 1) n

/-- Decimal digit value of an ASCII byte. -/
def decDigit? (c : Nat) : Option Nat :=
  if 48 ≤ c ∧ c ≤ 57 then some (c - 48) else none

def decToNatAux : List Nat → Nat → Option Nat
  | [], acc => some acc
  | c :: rest, acc =>
    match decDigit? c with
    | some d => decToNatAux rest (acc * 10 + d)
    | none => none

/-- Parse a non-empty all-decimal byte string. -/
def decToNat? (cs : List Nat) : Option Nat :=
  if cs = [] then none else decToNatAux cs 0

theorem decDigit?_digit (d : Nat) (h : d < 10) : decDigit? (48 + d) = some d := by
  unfold decDigit?
  rw [if_pos (by omega : 48 ≤ 48 + d ∧ 48 + d ≤ 57)]
  simp only [Option.some.injEq]
  omega

theorem decToNatAux_single (d v : Nat) (h : d < 10) :
    decToNatAux [48 + d] v = some (v * 10 + d) := by
  simp [decToNatAux, decDigit?_digit d h]

theorem decToNatAux_append (xs ys : List Nat) (acc : Nat) :
    decToNatAux (xs ++ ys) acc =
      (decToNatAux xs acc).bind (fun v => decToNatAux ys v) := by
  induction xs generalizing acc with
  | nil => rfl
  | cons c cs ih =>
    simp only [List.cons_append, decToNatAux]
    cases decDigit? c with
    | none => rfl
    | some d => exact ih _

theorem natToDecAux_ne_nil (fuel n : Nat) (h : n < fuel) :
    natToDecAux fuel n ≠ [] := by
  cases fuel with
  | zero => omega
  | succ f =>
    simp only [natToDecAux]
    split <;> simp

theorem decToNatAux_natToDecAux (fuel : Nat) :
    ∀ n acc, n < fuel →
      decToNatAux (natToDecAux fuel n) acc =
        some (acc * 10 ^ (natToDecAux fuel n).length + n) := by
  induction fuel with
  | zero => intro n acc h; omega
  | succ f ih =>
    intro n acc _
    simp only [natToDecAux]
    split
    · rename_i h10
      rw [decToNatAux_single n acc h10]
      simp only [List.length_cons, List.length_nil, pow_one, Option.some.injEq]
      omega
    · rename_i h10
      push_neg at h10
      have hf : n / 10 < f := by omega
      rw [decToNatAux_append, ih (n / 10) acc hf, Option.some_bind,
        decToNatAux_single (n % 10) _ (Nat.mod_lt n (by omega))]
      simp only [List.length_append, List.length_cons, List.length_nil,
        Option.some.injEq]
      generalize (natToDecAux f (n / 10)).length = L
      rw [pow_succ]
      have hm : n / 10 * 10 + n % 10 = n := by omega
      calc (acc * 10 ^ L + n / 10) * 10 + n % 10
          = acc * (10 ^ L * 10) + (n / 10 * 10 + n % 10) := by ring
        _ = acc * (10 ^ L * 10) + n := by rw [hm]

theorem decToNat?_natToDec (n : Nat) : decToNat? (natToDec n) = some n := by
  have hne := natToDecAux_ne_nil (n + 1) n (by omega)
  have h := decToNatAux_natToDecAux (n + 1) n 0 (by omega)
  rw [natToDec]
  unfold decToNat?
  rw [if_neg hne, h]
  simp

theorem natToDecAux_digits (fuel : Nat) :
    ∀ n, ∀ c ∈ natToDecAux fuel n, 48 ≤ c ∧ c ≤ 57 := by
  induction fuel with
  | zero => intro n c hc; simp [natToDecAux] at hc
  | succ f ih =>
    intro n c hc
    simp only [natToDecAux] at hc
    split at hc
    · simp at hc; omega
    · rw [List.mem_append] at hc
      rcases hc with hc | hc
      · exact ih _ c hc
      · simp at hc; omega

theorem natToDec_digits (n : Nat) : ∀ c ∈ natToDec n, 48 ≤ c ∧ c ≤ 57 :=
  natToDecAux_digits (n + 1) n

/-! ## Base64 (spec section 4.6)

Standard-alphabet base64; inline tokens are unpadded, PEM bodies carry
trailing `=` padding, and the decoder accepts both. -/

/-- ASCII code of the base64 character for a sextet value. -/
def b64Char (n : Nat) : Nat :=
  if n < 26 then 65 + n
  else if n < 52 then 71 + n
  else if n < 62 then n - 4
  else if n = 62 then 43
  else 47

/-- Sextet value of a base64 ASCII code. -/
def b64Val (c : Nat) : Option Nat :=
  if 65 ≤ c ∧ c ≤ 90 then some (c - 65)
  else if 97 ≤ c ∧ c ≤ 122 then some (c - 71)
  else if 48 ≤ c ∧ c ≤ 57 then some (c + 4)
  else if c = 43 then some 62
  else if c = 47 then some 63
  else none

theorem b64Val_b64Char : ∀ n < 64, b64Val (b64Char n) = some n := by decide

theorem b64Char_ascii (n : Nat) :
    b64Char n ≠ 10 ∧ b64Char n ≠ 32 ∧ b64Char n ≠ 61 ∧ b64Char n ≠ 45 ∧
      b64Char n < 123 := by
  unfold b64Char
  split
  · omega
  · split
    · omega
    · split
      · omega
      · split <;> omega

/-- Core base64 encoder: bytes to (unpadded) base64 character codes. -/
def b64e : List Nat → List Nat
  | [] => []
  | [a] => [b64Char (a / 4), b64Char (a % 4 * 16)]
  | [a, b] => [b64Char (a / 4), b64Char (a % 4 * 16 + b / 16),
               b64Char (b % 16 * 4)]
  | a :: b :: c :: rest =>
      b64Char (a / 4) :: b64Char (a % 4 * 16 + b / 16) ::
      b64Char (b % 16 * 4 + c / 64) :: b64Char (c % 64) :: b64e rest

/-- Core base64 decoder on unpadded character codes. -/
def b64d : List Nat → Option (List Nat)
  | [] => some []
  | [_] => none
  | [c1, c2] =>
    match b64Val c1, b64Val c2 with
    | some v1, some v2 => some [v1 * 4 + v2 / 16]
    | _, _ => none
  | [c1, c2, c3] =>
    match b64Val c1, b64Val c2, b64Val c3 with
    | some v1, some v2, some v3 =>
        some [v1 * 4 + v2 / 16, v2 % 16 * 16 + v3 / 4]
    | _, _, _ => none
  | c1 :: c2 :: c3 :: c4 :: rest =>
    match b64Val c1, b64Val c2, b64Val c3, b64Val c4, b64d rest with
    | some v1, some v2, some v3, some v4, some bs =>
        some ((v1 * 4 + v2 / 16) :: (v2 % 16 * 16 + v3 / 4) ::
          (v3 % 4 * 64 + v4) :: bs)
    | _, _, _, _, _ => none

theorem b64e_mem (bs : List Nat) : ∀ c ∈ b64e bs, ∃ v, c = b64Char v := by
  have H : ∀ n (l : List Nat), l.length ≤ n → ∀ c ∈ b64e l, ∃ v, c = b64Char v := by
    intro n
    induction n with
    | zero =>
      intro l hl c hc
      have hnil : l = [] := List.length_eq_zero.mp (by omega)
      rw [hnil] at hc
      simp [b64e] at hc
    | succ m ih =>
      intro l hl c hc
      match l with
      | [] => simp [b64e] at hc
      | [a] => simp [b64e] at hc; rcases hc with h | h <;> exact ⟨_, h⟩
      | [a, b] =>
        simp [b64e] at hc; rcases hc with h | h | h <;> exact ⟨_, h⟩
      | a :: b :: c0 :: rest =>
        simp only [b64e, List.mem_cons] at hc
        rcases hc with h | h | h | h | h
        · exact ⟨_, h⟩
        · exact ⟨_, h⟩
        · exact ⟨_, h⟩
        · exact ⟨_, h⟩
        · exact ih rest (by simp at hl; omega) c h
  exact H bs.length bs (le_refl _)

theorem b64e_no_nl (bs : List Nat) : (10 : Nat) ∉ b64e bs := by
  intro h
  obtain ⟨v, hv⟩ := b64e_mem bs 10 h
  exact (b64Char_ascii v).1 hv.symm

theorem b64e_no_sp (bs : List Nat) : (32 : Nat) ∉ b64e bs := by
  intro h
  obtain ⟨v, hv⟩ := b64e_mem bs 32 h
  exact (b64Char_ascii v).2.1 hv.symm

theorem b64e_no_eq (bs : List Nat) : ∀ c ∈ b64e bs, c ≠ 61 := by
  intro c h hc
  obtain ⟨v, hv⟩ := b64e_mem bs c h
  exact (b64Char_ascii v).2.2.1 (hv ▸ hc)

theorem b64e_lt (bs : List Nat) : ∀ c ∈ b64e bs, c < 256 := by
  intro c h
  obtain ⟨v, hv⟩ := b64e_mem bs c h
  have := (b64Char_ascii v).2.2.2.2
  omega

theorem b64d_b64e (bs : List Nat) (h : ∀ b ∈ bs, b < 256) :
    b64d (b64e bs) = some bs := by
  have H : ∀ n (l : List Nat), l.length ≤ n → (∀ b ∈ l, b < 256) →
      b64d (b64e l) = some l := by
    intro n
    induction n with
    | zero =>
      intro l hl _
      have hnil : l = [] := List.length_eq_zero.mp (by omega)
      rw [hnil]
      rfl
    | succ m ih =>
      intro l hl hb
      match l with
      | [] => rfl
      | [a] =>
        have ha : a < 256 := hb a (by simp)
        simp only [b64e, b64d]
        rw [b64Val_b64Char _ (by omega), b64Val_b64Char _ (by omega)]
        simp only [Option.some.injEq, List.cons.injEq, and_true]
        omega
      | [a, b] =>
        have ha : a < 256 := hb a (by simp)
        have hbb : b < 256 := hb b (by simp)
        simp only [b64e, b64d]
        rw [b64Val_b64Char _ (by omega), b64Val_b64Char _ (by omega),
          b64Val_b64Char _ (by omega)]
        simp only [Option.some.injEq, List.cons.injEq, and_true]
        constructor <;> omega
      | a :: b :: c :: rest =>
        have ha : a < 256 := hb a (by simp)
        have hbb : b < 256 := hb b (by simp)
        have hc : c < 256 := hb c (by simp)
        have hrest : b64d (b64e rest) = some rest :=
          ih rest (by simp at hl; omega) (fun x hx => hb x (by simp [hx]))
        simp only [b64e, b64d]
        rw [b64Val_b64Char _ (by omega), b64Val_b64Char _ (by omega),
          b64Val_b64Char _ (by omega), b64Val_b64Char _ (by omega), hrest]
        simp only [Option.some.injEq, List.cons.injEq, and_true]
        refine ⟨by omega, by omega, by omega⟩
  exact H bs.length bs (le_refl _) h

/-- Base64 with trailing `=` padding, as used inside PEM blocks. -/
def b64pad (bs : List Nat) : List Nat :=
  b64e bs ++ List.replicate ((3 - bs.length % 3) % 3) 61

/-- Strip trailing `=` padding characters. -/
def stripEq (cs : List Nat) : List Nat :=
  (cs.reverse.dropWhile (fun c => c == 61)).reverse

/-- Full base64 decoder: accepts both padded and unpadded tokens. -/
def b64decode (cs : List Nat) : Option (List Nat) :=
  b64d (stripEq cs)

theorem stripEq_append_pad (l : List Nat) (k : Nat) (h : ∀ c ∈ l, c ≠ 61) :
    stripEq (l ++ List.replicate k 61) = l := by
  unfold stripEq
  rw [List.reverse_append, List.reverse_replicate]
  have hrep : ∀ m (xs : List Nat),
      (List.replicate m 61 ++ xs).dropWhile (fun c => c == 61) =
        xs.dropWhile (fun c => c == 61) := by
    intro m
    induction m with
    | zero => intro xs; simp
    | succ p ih =>
      intro xs
      rw [List.replicate_succ, List.cons_append, List.dropWhile_cons]
      simp only [beq_self_eq_true, if_true]
      exact ih xs
  rw [hrep]
  cases hl : l.reverse with
  | nil =>
    simp [List.reverse_eq_nil_iff.mp hl]
  | cons a as =>
    have ha : a ∈ l := by
      have h1 : a ∈ l.reverse := by rw [hl]; simp
      simpa using h1
    have hne : (a == 61) = false := by simpa using h a ha
    rw [List.dropWhile_cons, hne]
    simp only [Bool.false_eq_true, if_false]
    rw [← hl, List.reverse_reverse]

theorem b64decode_b64pad (bs : List Nat) (h : ∀ b ∈ bs, b < 256) :
    b64decode (b64pad bs) = some bs := by
  unfold b64decode b64pad
  rw [stripEq_append_pad _ _ (b64e_no_eq bs), b64d_b64e bs h]

theorem b64decode_b64e (bs : List Nat) (h : ∀ b ∈ bs, b < 256) :
    b64decode (b64e bs) = some bs := by
  have : b64e bs = b64e bs ++ List.replicate 0 61 := by simp
  rw [b64decode, this, stripEq_append_pad _ _ (b64e_no_eq bs), b64d_b64e bs h]

theorem b64pad_no_nl (bs : List Nat) : (10 : Nat) ∉ b64pad bs := by
  intro hmem
  rw [b64pad, List.mem_append] at hmem
  rcases hmem with hmem | hmem
  · exact b64e_no_nl bs hmem
  · exact absurd (List.eq_of_mem_replicate hmem) (by decide)

theorem b64pad_lt (bs : List Nat) : ∀ c ∈ b64pad bs, c < 256 := by
  intro c hmem
  rw [b64pad, List.mem_append] at hmem
  rcases hmem with hmem | hmem
  · exact b64e_lt bs c hmem
  · rw [List.eq_of_mem_replicate hmem]; omega

/-! ## Big-endian integers (spec section 4.5) -/

/-- Big-endian 2-byte encoding of a 16-bit value. -/
def be16 (n : Nat) : List Nat := [n / 256 % 256, n % 256]

/-- Big-endian 4-byte encoding of a 32-bit value. -/
def be32 (n : Nat) : List Nat :=
  [n / 16777216 % 256, n / 65536 % 256, n / 256 % 256, n % 256]

/-- Value of two big-endian bytes. -/
def ofBe16 (b1 b2 : Nat) : Nat := b1 * 256 + b2

/-- Value of four big-endian bytes. -/
def ofBe32 (b1 b2 b3 b4 : Nat) : Nat :=
  b1 * 16777216 + b2 * 65536 + b3 * 256 + b4

theorem be16_spec (n : Nat) (h : n < 65536) :
    ofBe16 (n / 256 % 256) (n % 256) = n := by
  unfold ofBe16
  omega

theorem be32_spec (n : Nat) (h : n < 4294967296) :
    ofBe32 (n / 16777216 % 256) (n / 65536 % 256) (n / 256 % 256) (n % 256) = n := by
  unfold ofBe32
  omega

theorem be16_lt (n : Nat) : ∀ c ∈ be16 n, c < 256 := by
  intro c hc
  simp [be16] at hc
  rcases hc with h | h <;> omega

theorem be32_lt (n : Nat) : ∀ c ∈ be32 n, c < 256 := by
  intro c hc
  simp [be32] at hc
  rcases hc with h | h | h | h <;> omega

theorem be16_length (n : Nat) : (be16 n).length = 2 := rfl

theorem be32_length (n : Nat) : (be32 n).length = 4 := rfl

/-! ## Symbolic cryptographic primitives

The spec (section 1) treats Ed25519, SHA3-256, the stream cipher and the
KDF as external collaborators accessed through abstract interfaces.  They
are modelled here as deterministic executable functions: a signature over
a message under a public key is a 64-byte string computed by a fixed
pseudo-digest of the key and the message, and verification recomputes it.
This captures exactly the interface properties the codec relies on:
signing is deterministic, verification accepts precisely the signer's
output, and outputs are fixed-length byte strings. -/

/-- A simple deterministic accumulator digest of a byte list. -/
def mixDigest (l : List Nat) : Nat :=
  l.foldl (fun a b => (a * 6364136223846793005 + b + 1442695040888963407) %
    18446744073709551616) 5381

/-- Expand a digest seed into `n` pseudo-random bytes. -/
def expandBytes (seed n : Nat) : List Nat :=
  (List.range n).map (fun i =>
    (seed / 256 ^ (i % 8) + seed * (i / 8 + 1) + i) % 256)

theorem expandBytes_length (seed n : Nat) : (expandBytes seed n).length = n := by
  simp [expandBytes]

theorem expandBytes_lt (seed n : Nat) : ∀ c ∈ expandBytes seed n, c < 256 := by
  intro c hc
  simp only [expandBytes, List.mem_map] at hc
  obtain ⟨i, _, hi⟩ := hc
  omega

/-- Modelled from the spec: Ed25519 signature bytes of a message under the
keypair whose public part is `pk` (the primitive itself is out of scope;
this is its symbolic stand-in). -/
def ed25519_sig_bytes (pk msg : List Nat) : List Nat :=
  expandBytes (mixDigest (pk ++ [255] ++ msg)) 64

/-- Modelled from the spec: Ed25519 verification: accept exactly the
signer's deterministic output for this public key and message. -/
def ed25519_checksig (sig pk msg : List Nat) : Bool :=
  sig == ed25519_sig_bytes pk msg

/-- Modelled from the spec: the fixed domain-separation prefix for the
descriptor signature (section 4.1 step 3; the test suite pins the string
value). -/
def HS_DESC_SIG_PREFIX : List Nat := strB "Tor onion service descriptor sig v3"

/-- Modelled from the spec: prefixed signing as used by the descriptor
signature: sign the domain-separation prefix followed by the message. -/
def ed25519_sign_prefixed (pk prefixB msg : List Nat) : List Nat :=
  ed25519_sig_bytes pk (prefixB ++ msg)

theorem ed25519_sig_bytes_length (pk msg : List Nat) :
    (ed25519_sig_bytes pk msg).length = 64 := expandBytes_length _ _

theorem ed25519_sig_bytes_lt (pk msg : List Nat) :
    ∀ c ∈ ed25519_sig_bytes pk msg, c < 256 := expandBytes_lt _ _

/-! ## Certificate module (spec section 4.3)

A certificate binds a subject public key to an issuer signing key with an
expiry; the issuer key may be embedded as the signing-key-inclusion
extension.  The binary layout is modelled on the fixed-shape format the
spec describes (version, purpose tag, expiration, subject key, optional
embedded signing key, signature). -/

/-- Modelled from the spec: certificate purpose tag of the descriptor
signing-key certificate (section 4.3 type A). -/
def CERT_TYPE_SIGNING_HS_DESC : Nat := 8

/-- Modelled from the spec: certificate purpose tag of the
introduction-point authentication-key certificate (section 4.3 type B). -/
def CERT_TYPE_AUTH_HS_IP_KEY : Nat := 9

/-- Modelled from the spec: certificate purpose tag of the
introduction-point encryption-key certificate (section 4.3 type C). -/
def CERT_TYPE_CROSS_HS_IP_KEYS : Nat := 11

/-- Certificate purpose tag used by the certificate encoding test. -/
def CERT_TYPE_SIGNING_AUTH : Nat := 4

/-- An Ed25519 keypair; only the public part is ever serialized. -/
structure ed25519_keypair where
  sk : List Nat
  pk : List Nat
deriving DecidableEq, Repr

/-- Modelled from the spec: a certificate object (section 3 data model):
version, purpose tag, expiration, subject public key, issuer signing
public key with its inclusion flag, and the signature. -/
structure tor_cert where
  version : Nat
  cert_type : Nat
  exp : Nat
  certified_key : List Nat
  signing_key : List Nat
  signing_key_included : Bool
  sig : List Nat
deriving DecidableEq, Repr

/-- Byte encoding of the signed portion of a certificate: version byte,
purpose byte, 4-byte big-endian expiration, key-type byte, 32-byte subject
key, extension count, and the optional signing-key extension (2-byte
length, type, flags, 32-byte key). -/
def cert_body_bytes (c : tor_cert) : List Nat :=
  [c.version, c.cert_type] ++ be32 c.exp ++ [1] ++ c.certified_key ++
    (if c.signing_key_included then [1, 0, 32, 4, 1] ++ c.signing_key else [0])

/-- Full byte encoding of a certificate: signed body followed by the
64-byte signature. -/
def tor_cert_encode_bytes (c : tor_cert) : List Nat :=
  cert_body_bytes c ++ c.sig

/-- Modelled from the spec: certificate construction (section 4.3): bind
`signed_key` under purpose `ctype`, expiring `lifetime` seconds after
`now`, signed by `kp`, optionally embedding the issuer public key. -/
def tor_cert_create (kp : ed25519_keypair) (ctype : Nat)
    (signed_key : List Nat) (now lifetime : Nat) (include_signing_key : Bool) :
    tor_cert :=
  let body : tor_cert :=
    { version := 1
      cert_type := ctype
      exp := now + lifetime
      certified_key := signed_key
      signing_key := kp.pk
      signing_key_included := include_signing_key
      sig := [] }
  { body with sig := ed25519_sig_bytes kp.pk (cert_body_bytes body) }

/-- Modelled from the spec: parse a certificate from its byte encoding,
rejecting any layout deviation or trailing data. -/
def tor_cert_parse (bs : List Nat) : Option tor_cert :=
  match bs with
  | v :: t :: e1 :: e2 :: e3 :: e4 :: kt :: rest =>
    if kt ≠ 1 then none
    else
      match takeExact 32 rest with
      | none => none
      | some (ckey, rest2) =>
        match rest2 with
        | 0 :: rest3 =>
          match takeExact 64 rest3 with
          | some (sig, []) =>
            some { version := v, cert_type := t, exp := ofBe32 e1 e2 e3 e4,
                   certified_key := ckey, signing_key := List.replicate 32 0,
                   signing_key_included := false, sig := sig }
          | _ => none
        | 1 :: 0 :: 32 :: 4 :: 1 :: rest3 =>
          match takeExact 32 rest3 with
          | none => none
          | some (skey, rest4) =>
            match takeExact 64 rest4 with
            | some (sig, []) =>
              some { version := v, cert_type := t, exp := ofBe32 e1 e2 e3 e4,
                     certified_key := ckey, signing_key := skey,
                     signing_key_included := true, sig := sig }
            | _ => none
        | _ => none
  | _ => none

/-- Certificate equality as the source's `tor_cert_eq`: equality of the
full byte encodings. -/
def tor_cert_eq (c1 c2 : tor_cert) : Bool :=
  tor_cert_encode_bytes c1 == tor_cert_encode_bytes c2

/-- Modelled from the spec: `tor_cert_checksig` (section 4.3): reject when
a nonzero clock says the expiration lies at or before now, when the
embedded signing key contradicts the key checked against, or when the
signature over the body does not verify. -/
def tor_cert_checksig (c : tor_cert) (pk : List Nat) (now : Nat) : Bool :=
  if now ≠ 0 ∧ c.exp ≤ now then false
  else if c.signing_key_included && (c.signing_key ≠ pk) then false
  else ed25519_checksig c.sig pk (cert_body_bytes c)

/-- Modelled from the spec: PEM armor of a certificate
(section 4.6: exact header and footer with the block kind). -/
def encode_cert (c : tor_cert) : List Nat :=
  strB "-----BEGIN ED25519 CERT-----\n" ++ b64pad (tor_cert_encode_bytes c) ++
    strB "\n-----END ED25519 CERT-----\n"

/-- Modelled from the spec: `cert_is_valid` (sections 3 invariant 4 and
4.3): a certificate is valid for an expected purpose when it is present,
has that purpose tag, carries the signing-key-inclusion extension, and its
signature verifies against its own embedded signing key; the log label is
only used for diagnostics. -/
def cert_is_valid (now : Nat) (cert : Option tor_cert) (ctype : Nat)
    (_log_obj_type : List Nat) : Bool :=
  match cert with
  | none => false
  | some c =>
    if c.cert_type ≠ ctype then false
    else if !c.signing_key_included then false
    else tor_cert_checksig c c.signing_key now

/-- Wellformedness of a certificate object: byte-valued fields are in
range and have their fixed lengths, the expiration fits 32 bits, and the
signing key is embedded. -/
def certWF (c : tor_cert) : Prop :=
  c.version < 256 ∧ c.cert_type < 256 ∧ c.exp < 4294967296 ∧
  c.certified_key.length = 32 ∧ (∀ b ∈ c.certified_key, b < 256) ∧
  c.signing_key.length = 32 ∧ (∀ b ∈ c.signing_key, b < 256) ∧
  c.signing_key_included = true ∧
  c.sig.length = 64 ∧ (∀ b ∈ c.sig, b < 256)

instance (c : tor_cert) : Decidable (certWF c) := by
  unfold certWF
  infer_instance

theorem tor_cert_parse_encode (c : tor_cert) (h : certWF c) :
    tor_cert_parse (tor_cert_encode_bytes c) = some c := by
  obtain ⟨hv, ht, he, hck, _, hsk, _, hinc, hsig, _⟩ := h
  unfold tor_cert_encode_bytes cert_body_bytes
  rw [hinc]
  simp only [if_true]
  unfold be32 tor_cert_parse
  simp only [List.cons_append, List.nil_append, List.append_assoc]
  rw [if_neg (by omega : ¬(1 ≠ 1))]
  have h1 : takeExact 32
      (c.certified_key ++ 1 :: 0 :: 32 :: 4 :: 1 :: (c.signing_key ++ c.sig)) =
      some (c.certified_key, 1 :: 0 :: 32 :: 4 :: 1 :: (c.signing_key ++ c.sig)) := by
    have hae := takeExact_append c.certified_key
      (1 :: 0 :: 32 :: 4 :: 1 :: (c.signing_key ++ c.sig))
    rwa [hck] at hae
  have h2 : takeExact 32 (c.signing_key ++ c.sig) = some (c.signing_key, c.sig) := by
    have hae := takeExact_append c.signing_key c.sig
    rwa [hsk] at hae
  have h3 : takeExact 64 c.sig = some (c.sig, []) := by
    have hae := takeExact_append c.sig []
    rwa [hsig, List.append_nil] at hae
  simp only [h1, h2, h3, Option.some.injEq]
  have hexp := be32_spec c.exp he
  cases c
  simp_all [ofBe32]

theorem lt256_append {l1 l2 : List Nat} (h1 : ∀ b ∈ l1, b < 256)
    (h2 : ∀ b ∈ l2, b < 256) : ∀ b ∈ l1 ++ l2, b < 256 := by
  intro b hb
  rcases List.mem_append.mp hb with h | h
  · exact h1 b h
  · exact h2 b h

theorem cert_encode_lt (c : tor_cert) (h : certWF c) :
    ∀ b ∈ tor_cert_encode_bytes c, b < 256 := by
  obtain ⟨hv, ht, he, _, hckb, _, hskb, hinc, _, hsigb⟩ := h
  unfold tor_cert_encode_bytes cert_body_bytes
  rw [hinc]
  simp only [if_true]
  refine lt256_append (lt256_append (lt256_append (lt256_append
    (lt256_append ?_ ?_) ?_) ?_) (lt256_append ?_ ?_)) ?_
  · intro b hb
    simp only [List.mem_cons, List.not_mem_nil, or_false] at hb
    rcases hb with hb | hb <;> omega
  · exact be32_lt c.exp
  · intro b hb
    simp only [List.mem_cons, List.not_mem_nil, or_false] at hb
    omega
  · exact hckb
  · intro b hb
    simp only [List.mem_cons, List.not_mem_nil, or_false] at hb
    rcases hb with hb | hb | hb | hb | hb <;> omega
  · exact hskb
  · exact hsigb

theorem cert_body_bytes_sig_irrelevant (c : tor_cert) (s : List Nat) :
    cert_body_bytes { c with sig := s } = cert_body_bytes c := rfl

/-- C5: certificate validation rejects every certificate whose purpose tag
differs from the expected one, every certificate without the embedded
signing-key extension, and every certificate whose signature fails to
verify; and it accepts a freshly created, unexpired certificate of the
expected purpose that includes its signing key. -/
theorem cert_is_valid_spec :
    (∀ now c ctype label, c.cert_type ≠ ctype →
      cert_is_valid now (some c) ctype label = false) ∧
    (∀ now c ctype label, c.signing_key_included = false →
      cert_is_valid now (some c) ctype label = false) ∧
    (∀ now c ctype label, tor_cert_checksig c c.signing_key now = false →
      cert_is_valid now (some c) ctype label = false) ∧
    (∀ now (kp : ed25519_keypair) ctype signed_key label lifetime,
      0 < lifetime →
      cert_is_valid now
        (some (tor_cert_create kp ctype signed_key now lifetime true))
        ctype label = true) := by
  refine ⟨?_, ?_, ?_, ?_⟩
  · intro now c ctype label hne
    simp [cert_is_valid, hne]
  · intro now c ctype label hninc
    simp only [cert_is_valid, hninc]
    split
    · rfl
    · simp
  · intro now c ctype label hsig
    simp only [cert_is_valid]
    split
    · rfl
    · split
      · rfl
      · exact hsig
  · intro now kp ctype signed_key label lifetime hlt
    have hexp : ¬(now ≠ 0 ∧ now + lifetime ≤ now) := by omega
    simp [cert_is_valid, tor_cert_create, tor_cert_checksig,
      ed25519_checksig, cert_body_bytes, hexp]
    omega

/-- C9: certificate validation is total on a missing certificate: for every
clock value, expected purpose tag and log label, `cert_is_valid` applied to
no certificate returns invalid. -/
theorem cert_is_valid_none (now ctype : Nat) (label : List Nat) :
    cert_is_valid now none ctype label = false := rfl

theorem tor_cert_create_WF (kp : ed25519_keypair) (ctype : Nat)
    (signed_key : List Nat) (now lifetime : Nat)
    (hsk : signed_key.length = 32) (hskb : ∀ b ∈ signed_key, b < 256)
    (hpk : kp.pk.length = 32) (hpkb : ∀ b ∈ kp.pk, b < 256)
    (ht : ctype < 256) (he : now + lifetime < 4294967296) :
    certWF (tor_cert_create kp ctype signed_key now lifetime true) := by
  unfold certWF
  simp only [tor_cert_create]
  exact ⟨by omega, ht, he, hsk, hskb, hpk, hpkb, trivial,
    ed25519_sig_bytes_length _ _, ed25519_sig_bytes_lt _ _⟩

theorem tor_cert_create_checksig (kp : ed25519_keypair) (ctype : Nat)
    (signed_key : List Nat) (now lifetime tnow : Nat) (inc : Bool)
    (h : tnow = 0 ∨ tnow < now + lifetime) :
    tor_cert_checksig (tor_cert_create kp ctype signed_key now lifetime inc)
      kp.pk tnow = true := by
  have hexp : ¬(tnow ≠ 0 ∧ now + lifetime ≤ tnow) := by omega
  simp [tor_cert_create, tor_cert_checksig, ed25519_checksig,
    cert_body_bytes, hexp]

theorem cert_is_valid_create (kp : ed25519_keypair) (ctype : Nat)
    (signed_key : List Nat) (now lifetime tnow : Nat) (label : List Nat)
    (h : tnow = 0 ∨ tnow < now + lifetime) :
    cert_is_valid tnow
      (some (tor_cert_create kp ctype signed_key now lifetime true))
      ctype label = true := by
  have hexp : ¬(tnow ≠ 0 ∧ now + lifetime ≤ tnow) := by omega
  simp [cert_is_valid, tor_cert_create, tor_cert_checksig, ed25519_checksig,
    cert_body_bytes, hexp]

/-- C10: every certificate produced by `tor_cert_create` with the
include-signing-key flag is armored by `encode_cert` exactly between the
ED25519 CERT header and footer; its base64 payload decodes back to the
certificate bytes, those bytes parse back by `tor_cert_parse` into a
certificate equal by `tor_cert_eq` to the original, its signature verifies
against the issuing key shortly after creation, and it carries the
issuer's signing key embedded. -/
theorem encode_cert_roundtrip (kp : ed25519_keypair) (ctype : Nat)
    (signed_key : List Nat) (now lifetime : Nat) (c : tor_cert)
    (hc : c = tor_cert_create kp ctype signed_key now lifetime true)
    (hpk : kp.pk.length = 32) (hpkb : ∀ b ∈ kp.pk, b < 256)
    (hsk : signed_key.length = 32) (hskb : ∀ b ∈ signed_key, b < 256)
    (ht : ctype < 256) (hexp : now + lifetime < 4294967296)
    (hlt : 10 < lifetime) :
    encode_cert c =
      strB "-----BEGIN ED25519 CERT-----\n" ++
        b64pad (tor_cert_encode_bytes c) ++
        strB "\n-----END ED25519 CERT-----\n" ∧
    b64decode (b64pad (tor_cert_encode_bytes c)) =
      some (tor_cert_encode_bytes c) ∧
    tor_cert_parse (tor_cert_encode_bytes c) = some c ∧
    tor_cert_eq c c = true ∧
    tor_cert_checksig c kp.pk (now + 10) = true ∧
    c.signing_key_included = true ∧
    c.signing_key = kp.pk := by
  subst hc
  have hWF := tor_cert_create_WF kp ctype signed_key now lifetime
    hsk hskb hpk hpkb ht hexp
  refine ⟨rfl, b64decode_b64pad _ (cert_encode_lt _ hWF),
    tor_cert_parse_encode _ hWF, ?_, ?_, rfl, rfl⟩
  · simp [tor_cert_eq]
  · exact tor_cert_create_checksig kp ctype signed_key now lifetime
      (now + 10) true (Or.inr (by omega))

/-! ## Concrete fixtures for witness instantiations -/

def sampleKp : ed25519_keypair :=
  { sk := List.replicate 32 7, pk := List.replicate 32 3 }

def sampleKey2 : List Nat := List.replicate 32 5

def sampleCert : tor_cert :=
  tor_cert_create sampleKp CERT_TYPE_AUTH_HS_IP_KEY sampleKp.pk 1000 3600 true

def sampleCertNoKey : tor_cert :=
  tor_cert_create sampleKp CERT_TYPE_AUTH_HS_IP_KEY sampleKp.pk 1000 3600 false

def sampleCertBadSig : tor_cert :=
  { sampleCert with sig := List.replicate 64 0 }

/-- Witness for C5 at concrete certificates: a wrong purpose tag, a
missing signing-key extension and a broken signature are each rejected,
and a fresh valid certificate is accepted. -/
theorem cert_is_valid_spec_w :
    cert_is_valid 1000 (some sampleCert) CERT_TYPE_SIGNING_HS_DESC
      (strB "unicorn") = false ∧
    cert_is_valid 1000 (some sampleCertNoKey) CERT_TYPE_AUTH_HS_IP_KEY
      (strB "unicorn") = false ∧
    cert_is_valid 1000 (some sampleCertBadSig) CERT_TYPE_AUTH_HS_IP_KEY
      (strB "unicorn") = false ∧
    cert_is_valid 1000 (some sampleCert) CERT_TYPE_AUTH_HS_IP_KEY
      (strB "unicorn") = true :=
  ⟨cert_is_valid_spec.1 1000 sampleCert CERT_TYPE_SIGNING_HS_DESC
      (strB "unicorn") (by decide),
   cert_is_valid_spec.2.1 1000 sampleCertNoKey CERT_TYPE_AUTH_HS_IP_KEY
      (strB "unicorn") (by decide),
   cert_is_valid_spec.2.2.1 1000 sampleCertBadSig CERT_TYPE_AUTH_HS_IP_KEY
      (strB "unicorn") (by decide),
   cert_is_valid_spec.2.2.2 1000 sampleKp CERT_TYPE_AUTH_HS_IP_KEY
      sampleKp.pk (strB "unicorn") 3600 (by decide)⟩

/-- Witness for C10 at a concrete certificate. -/
theorem encode_cert_roundtrip_w :
    encode_cert (tor_cert_create sampleKp CERT_TYPE_SIGNING_AUTH sampleKey2
        1000 7200 true) =
      strB "-----BEGIN ED25519 CERT-----\n" ++
        b64pad (tor_cert_encode_bytes (tor_cert_create sampleKp
          CERT_TYPE_SIGNING_AUTH sampleKey2 1000 7200 true)) ++
        strB "\n-----END ED25519 CERT-----\n" ∧
    b64decode (b64pad (tor_cert_encode_bytes (tor_cert_create sampleKp
        CERT_TYPE_SIGNING_AUTH sampleKey2 1000 7200 true))) =
      some (tor_cert_encode_bytes (tor_cert_create sampleKp
        CERT_TYPE_SIGNING_AUTH sampleKey2 1000 7200 true)) ∧
    tor_cert_parse (tor_cert_encode_bytes (tor_cert_create sampleKp
        CERT_TYPE_SIGNING_AUTH sampleKey2 1000 7200 true)) =
      some (tor_cert_create sampleKp CERT_TYPE_SIGNING_AUTH sampleKey2
        1000 7200 true) ∧
    tor_cert_eq (tor_cert_create sampleKp CERT_TYPE_SIGNING_AUTH sampleKey2
        1000 7200 true)
      (tor_cert_create sampleKp CERT_TYPE_SIGNING_AUTH sampleKey2
        1000 7200 true) = true ∧
    tor_cert_checksig (tor_cert_create sampleKp CERT_TYPE_SIGNING_AUTH
        sampleKey2 1000 7200 true) sampleKp.pk (1000 + 10) = true ∧
    (tor_cert_create sampleKp CERT_TYPE_SIGNING_AUTH sampleKey2
        1000 7200 true).signing_key_included = true ∧
    (tor_cert_create sampleKp CERT_TYPE_SIGNING_AUTH sampleKey2
        1000 7200 true).signing_key = sampleKp.pk :=
  encode_cert_roundtrip sampleKp CERT_TYPE_SIGNING_AUTH sampleKey2 1000 7200
    _ rfl (by decide) (by decide) (by decide) (by decide) (by decide)
    (by decide) (by decide)

/-! ## Claim C6: the descriptor signature check -/

/-- Find the first index at which the pattern occurs in the list. -/
def findSubAux (pat : List Nat) : List Nat → Nat → Option Nat
  | [], i => if (dropPrefix? pat []).isSome then some i else none
  | c :: cs, i =>
    if (dropPrefix? pat (c :: cs)).isSome then some i
    else findSubAux pat cs (i + 1)

/-- First occurrence of a byte pattern, as the source's `tor_memstr`. -/
def findSub (pat l : List Nat) : Option Nat := findSubAux pat l 0

/-- Modelled from the spec: `desc_sig_is_valid` (section 4.1 steps 3 and 5):
decode the base64 signature token, locate the signature line, and verify
an Ed25519 signature with the fixed domain-separation prefix over every
byte from the start of the document up to and including the newline
immediately preceding the signature line. -/
def desc_sig_is_valid (b64_sig : List Nat) (kp : ed25519_keypair)
    (encoded_desc : List Nat) : Bool :=
  match b64decode b64_sig with
  | none => false
  | some sig =>
    if sig.length ≠ 64 then false
    else
      match findSub (strB "\nsignature ") encoded_desc with
      | none => false
      | some i =>
        sig == ed25519_sign_prefixed kp.pk HS_DESC_SIG_PREFIX
          (encoded_desc.take (i + 1))

/-- C6: the descriptor signature check accepts a signature token exactly
when it is the Ed25519 signature computed with the fixed prefix string
over every byte of the document up to and including the newline
immediately preceding the signature line (the byte at the first
occurrence of the newline-signature pattern). -/
theorem desc_sig_is_valid_spec (tok : List Nat) (kp : ed25519_keypair)
    (txt : List Nat) (i : Nat)
    (hfind : findSub (strB "\nsignature ") txt = some i) :
    desc_sig_is_valid tok kp txt = true ↔
      b64decode tok =
        some (ed25519_sign_prefixed kp.pk HS_DESC_SIG_PREFIX
          (txt.take (i + 1))) := by
  unfold desc_sig_is_valid
  rw [hfind]
  cases hdec : b64decode tok with
  | none => simp
  | some sig =>
    dsimp only
    by_cases hlen : sig.length = 64
    · rw [if_neg (by omega)]
      simp only [beq_iff_eq, Option.some.injEq]
    · rw [if_pos (by omega)]
      simp only [Bool.false_eq_true, false_iff, Option.some.injEq]
      intro h
      apply hlen
      rw [h, ed25519_sign_prefixed, ed25519_sig_bytes_length]

def sampleSignedData : List Nat := strB "This is a signed descriptor\n"

def sampleSigTok : List Nat :=
  b64e (ed25519_sign_prefixed sampleKp.pk HS_DESC_SIG_PREFIX sampleSignedData)

def sampleSignedDesc : List Nat :=
  sampleSignedData ++ strB "signature " ++ sampleSigTok ++ [10]

/-- Witness for C6 at a concrete document: the true signature token is
accepted and the token JUNK is rejected. -/
theorem desc_sig_is_valid_spec_w :
    desc_sig_is_valid sampleSigTok sampleKp sampleSignedDesc = true ∧
    desc_sig_is_valid (strB "JUNK") sampleKp sampleSignedDesc = false := by
  constructor
  · exact (desc_sig_is_valid_spec sampleSigTok sampleKp sampleSignedDesc 27
      (by decide)).mpr (by decide)
  · have h := desc_sig_is_valid_spec (strB "JUNK") sampleKp sampleSignedDesc 27
      (by decide)
    rw [Bool.eq_false_iff, Ne, h]
    decide

/-! ## Link-specifier codec (spec section 4.5, claim C7) -/

/-- Modelled from the spec: type tag of an IPv4 link specifier. -/
def LS_IPV4 : Nat := 0

/-- Modelled from the spec: type tag of an IPv6 link specifier. -/
def LS_IPV6 : Nat := 1

/-- Modelled from the spec: type tag of a legacy-identity link specifier. -/
def LS_LEGACY_ID : Nat := 2

/-- Modelled from the spec: a link specifier is a tagged union over
IPv4 + port, IPv6 + port, 20-byte legacy identity, and an unknown type
with an opaque payload (section 3 data model, section 9). -/
inductive link_specifier where
  | ipv4 (addr : Nat) (port : Nat)
  | ipv6 (addr : List Nat) (port : Nat)
  | legacy_id (id : List Nat)
  | unknown (ltype : Nat) (payload : List Nat)
deriving DecidableEq, Repr

/-- The value length of a link specifier: 6 for IPv4, 18 for IPv6, 20 for
a legacy identity. -/
def lsValLen : link_specifier → Nat
  | .ipv4 _ _ => 6
  | .ipv6 _ _ => 18
  | .legacy_id _ => 20
  | .unknown _ payload => payload.length

/-- The type byte of a link specifier. -/
def lsTypeByte : link_specifier → Nat
  | .ipv4 _ _ => LS_IPV4
  | .ipv6 _ _ => LS_IPV6
  | .legacy_id _ => LS_LEGACY_ID
  | .unknown t _ => t

/-- One binary link-specifier record: type byte, length byte, value
(address bytes in network order with a big-endian port, or the raw
identity or payload bytes). -/
def lsBytes : link_specifier → List Nat
  | .ipv4 a p => [LS_IPV4, 6] ++ be32 a ++ be16 p
  | .ipv6 a p => [LS_IPV6, 18] ++ a ++ be16 p
  | .legacy_id d => [LS_LEGACY_ID, 20] ++ d
  | .unknown t pl => [t, pl.length] ++ pl

/-- Modelled from the spec: `encode_link_specifiers` (section 4.5): a
count byte followed by the records, all base64-armored. -/
def encode_link_specifiers (specs : List link_specifier) : List Nat :=
  b64pad ([specs.length] ++ specs.flatMap lsBytes)

/-- Modelled from the spec: parse one link-specifier record, returning the
record and the number of bytes consumed. -/
def link_specifier_parse : List Nat → Option (link_specifier × Nat)
  | t :: len :: rest =>
    if t = LS_IPV4 then
      if len = 6 then
        match rest with
        | a1 :: a2 :: a3 :: a4 :: p1 :: p2 :: _ =>
          some (.ipv4 (ofBe32 a1 a2 a3 a4) (ofBe16 p1 p2), 8)
        | _ => none
      else none
    else if t = LS_IPV6 then
      if len = 18 then
        match takeExact 16 rest with
        | some (addr, p1 :: p2 :: _) => some (.ipv6 addr (ofBe16 p1 p2), 20)
        | _ => none
      else none
    else if t = LS_LEGACY_ID then
      if len = 20 then
        match takeExact 20 rest with
        | some (d, _) => some (.legacy_id d, 22)
        | _ => none
      else none
    else
      match takeExact len rest with
      | some (pl, _) => some (.unknown t pl, 2 + len)
      | _ => none
  | _ => none

/-- Parse the given number of records in sequence. -/
def decode_link_specifiers_bin : Nat → List Nat → Option (List link_specifier)
  | 0, [] => some []
  | 0, _ :: _ => none
  | n + 1, bs =>
    match link_specifier_parse bs with
    | some (ls, used) =>
      match decode_link_specifiers_bin n (bs.drop used) with
      | some rest => some (ls :: rest)
      | none => none
    | none => none

/-- Modelled from the spec: decode a base64 link-specifier list: the first
byte is the count, then that many records follow. -/
def decode_link_specifiers (b64 : List Nat) : Option (List link_specifier) :=
  match b64decode b64 with
  | some (n :: rest) => decode_link_specifiers_bin n rest
  | _ => none

/-- Wellformedness of one link specifier: addresses and ports in range
with their fixed lengths; an unknown record has an unrecognized tag and a
byte-length payload. -/
def lsWF : link_specifier → Prop
  | .ipv4 a p => a < 4294967296 ∧ p < 65536
  | .ipv6 a p => a.length = 16 ∧ (∀ b ∈ a, b < 256) ∧ p < 65536
  | .legacy_id d => d.length = 20 ∧ ∀ b ∈ d, b < 256
  | .unknown t pl => 3 ≤ t ∧ t < 256 ∧ pl.length < 256 ∧ ∀ b ∈ pl, b < 256

instance (l : link_specifier) : Decidable (lsWF l) := by
  cases l <;> (unfold lsWF; infer_instance)

theorem lsBytes_length (s : link_specifier) (h : lsWF s) :
    (lsBytes s).length = 2 + lsValLen s := by
  cases s with
  | ipv4 a p => simp [lsBytes, lsValLen, be32, be16]
  | ipv6 a p =>
    obtain ⟨hal, _, _⟩ := h
    simp [lsBytes, lsValLen, be16, hal]
  | legacy_id d =>
    obtain ⟨hdl, _⟩ := h
    simp [lsBytes, lsValLen, hdl]
  | unknown t pl => simp [lsBytes, lsValLen]; omega

theorem lsBytes_head (s : link_specifier) :
    (lsBytes s).take 2 = [lsTypeByte s, lsValLen s] := by
  cases s <;> rfl

theorem lsBytes_lt (s : link_specifier) (h : lsWF s) :
    ∀ b ∈ lsBytes s, b < 256 := by
  cases s with
  | ipv4 a p =>
    obtain ⟨ha, hp⟩ := h
    intro b hb
    simp only [lsBytes, List.cons_append, List.nil_append, List.mem_cons,
      List.mem_append] at hb
    have h4 := be32_lt a
    have h2 := be16_lt p
    rcases hb with hb | hb | hb
    · simp [hb, LS_IPV4]
    · simp [hb]
    · rcases List.mem_append.mp (by simpa using hb) with h | h
      · exact h4 b h
      · exact h2 b h
  | ipv6 a p =>
    obtain ⟨_, hab, hp⟩ := h
    intro b hb
    simp only [lsBytes, List.cons_append, List.nil_append, List.mem_cons] at hb
    have h2 := be16_lt p
    rcases hb with hb | hb | hb
    · simp [hb, LS_IPV6]
    · simp [hb]
    · rcases List.mem_append.mp (by simpa using hb) with h | h
      · exact hab b h
      · exact h2 b h
  | legacy_id d =>
    obtain ⟨_, hdb⟩ := h
    intro b hb
    simp only [lsBytes, List.cons_append, List.nil_append, List.mem_cons] at hb
    rcases hb with hb | hb | hb
    · simp [hb, LS_LEGACY_ID]
    · simp [hb]
    · exact hdb b (by simpa using hb)
  | unknown t pl =>
    obtain ⟨_, ht, hpl, hplb⟩ := h
    intro b hb
    simp only [lsBytes, List.cons_append, List.nil_append, List.mem_cons] at hb
    rcases hb with hb | hb | hb
    · omega
    · omega
    · exact hplb b (by simpa using hb)

theorem link_specifier_parse_bytes (s : link_specifier) (rest : List Nat)
    (h : lsWF s) :
    link_specifier_parse (lsBytes s ++ rest) = some (s, 2 + lsValLen s) := by
  cases s with
  | ipv4 a p =>
    obtain ⟨ha, hp⟩ := h
    simp only [lsBytes, be32, be16, List.cons_append, List.nil_append,
      link_specifier_parse, if_true]
    simp only [Option.some.injEq, Prod.mk.injEq, lsValLen]
    exact ⟨by rw [be32_spec a ha, be16_spec p hp], trivial⟩
  | ipv6 a p =>
    obtain ⟨hal, hab, hp⟩ := h
    simp only [lsBytes, be16, List.cons_append, List.nil_append,
      link_specifier_parse, if_true]
    rw [if_neg (by decide)]
    have hta : takeExact 16 (a ++ p / 256 % 256 :: p % 256 :: rest) =
        some (a, p / 256 % 256 :: p % 256 :: rest) := by
      have hae := takeExact_append a (p / 256 % 256 :: p % 256 :: rest)
      rwa [hal] at hae
    rw [List.append_assoc]
    simp only [List.cons_append, List.nil_append]
    rw [hta]
    simp only [Option.some.injEq, Prod.mk.injEq, lsValLen]
    exact ⟨by rw [be16_spec p hp], trivial⟩
  | legacy_id d =>
    obtain ⟨hdl, hdb⟩ := h
    simp only [lsBytes, List.cons_append, List.nil_append,
      link_specifier_parse, if_true]
    rw [if_neg (by decide), if_neg (by decide)]
    have hta : takeExact 20 (d ++ rest) = some (d, rest) := by
      have hae := takeExact_append d rest
      rwa [hdl] at hae
    rw [hta]
    simp [lsValLen, hdl]
  | unknown t pl =>
    obtain ⟨ht3, ht, hpl, hplb⟩ := h
    have h0 : ¬(t = LS_IPV4) := by unfold LS_IPV4; omega
    have h1 : ¬(t = LS_IPV6) := by unfold LS_IPV6; omega
    have h2 : ¬(t = LS_LEGACY_ID) := by unfold LS_LEGACY_ID; omega
    simp only [lsBytes, List.cons_append, List.nil_append,
      link_specifier_parse]
    rw [if_neg h0, if_neg h1, if_neg h2, takeExact_append pl rest]
    simp [lsValLen]

theorem decode_link_specifiers_bin_flat (specs : List link_specifier)
    (h : ∀ s ∈ specs, lsWF s) :
    decode_link_specifiers_bin specs.length (specs.flatMap lsBytes) =
      some specs := by
  induction specs with
  | nil => rfl
  | cons s ss ih =>
    have hs : lsWF s := h s (by simp)
    rw [List.length_cons, List.flatMap_cons]
    simp only [decode_link_specifiers_bin,
      link_specifier_parse_bytes s (ss.flatMap lsBytes) hs]
    have hdrop : (lsBytes s ++ ss.flatMap lsBytes).drop (2 + lsValLen s) =
        ss.flatMap lsBytes := by
      have hl := lsBytes_length s hs
      rw [← hl, List.drop_left]
    rw [hdrop, ih (fun x hx => h x (by simp [hx]))]

theorem lsListBytes_lt (specs : List link_specifier)
    (hlen : specs.length < 256) (h : ∀ s ∈ specs, lsWF s) :
    ∀ b ∈ [specs.length] ++ specs.flatMap lsBytes, b < 256 := by
  intro b hb
  rcases List.mem_append.mp hb with hb | hb
  · simp at hb; omega
  · obtain ⟨s, hs, hbs⟩ := List.mem_flatMap.mp hb
    exact lsBytes_lt s (h s hs) b hbs

/-- C7: `encode_link_specifiers` produces, inside base64, a binary whose
first byte is the number of specifiers followed by one record each of a
type byte, a length byte and the value; the length byte is 6 for IPv4,
18 for IPv6 and 20 for a legacy identity; and parsing the binary back
recovers the same records (addresses, ports and identity bytes). -/
theorem encode_link_specifiers_spec (specs : List link_specifier)
    (hlen : specs.length < 256) (hwf : ∀ s ∈ specs, lsWF s) :
    b64decode (encode_link_specifiers specs) =
      some ([specs.length] ++ specs.flatMap lsBytes) ∧
    (∀ s ∈ specs, (lsBytes s).length = 2 + lsValLen s ∧
      (lsBytes s).take 2 = [lsTypeByte s, lsValLen s]) ∧
    (∀ a p, lsValLen (.ipv4 a p) = 6) ∧
    (∀ a p, lsValLen (.ipv6 a p) = 18) ∧
    (∀ d, lsValLen (.legacy_id d) = 20) ∧
    (∀ s ∈ specs, link_specifier_parse (lsBytes s) =
      some (s, 2 + lsValLen s)) ∧
    decode_link_specifiers (encode_link_specifiers specs) = some specs := by
  have hdec : b64decode (encode_link_specifiers specs) =
      some ([specs.length] ++ specs.flatMap lsBytes) :=
    b64decode_b64pad _ (lsListBytes_lt specs hlen hwf)
  refine ⟨hdec, ?_, fun a p => rfl, fun a p => rfl, fun d => rfl, ?_, ?_⟩
  · intro s hs
    exact ⟨lsBytes_length s (hwf s hs), lsBytes_head s⟩
  · intro s hs
    have h := link_specifier_parse_bytes s [] (hwf s hs)
    rwa [List.append_nil] at h
  · unfold decode_link_specifiers
    rw [hdec]
    simp only [List.cons_append, List.nil_append]
    exact decode_link_specifiers_bin_flat specs hwf

def sampleSpecs : List link_specifier :=
  [.ipv4 16909060 9001,
   .ipv6 [38, 0, 0, 0, 0, 0, 0, 0, 0, 0, 0, 0, 0, 0, 0, 1] 9001,
   .legacy_id (List.replicate 20 89)]

/-- Witness for C7 at a concrete list: an IPv4, an IPv6 and a legacy
identity specifier. -/
theorem encode_link_specifiers_spec_w :
    b64decode (encode_link_specifiers sampleSpecs) =
      some ([sampleSpecs.length] ++ sampleSpecs.flatMap lsBytes) ∧
    (∀ s ∈ sampleSpecs, (lsBytes s).length = 2 + lsValLen s ∧
      (lsBytes s).take 2 = [lsTypeByte s, lsValLen s]) ∧
    (∀ a p, lsValLen (.ipv4 a p) = 6) ∧
    (∀ a p, lsValLen (.ipv6 a p) = 18) ∧
    (∀ d, lsValLen (.legacy_id d) = 20) ∧
    (∀ s ∈ sampleSpecs, link_specifier_parse (lsBytes s) =
      some (s, 2 + lsValLen s)) ∧
    decode_link_specifiers (encode_link_specifiers sampleSpecs) =
      some sampleSpecs :=
  encode_link_specifiers_spec sampleSpecs (by decide) (by decide)

/-! ## Introduction-point codec (spec section 4.4, claims C8 and C1) -/

/-- Modelled from the spec: the encryption-key variant of an introduction
point: an elliptic-curve public key or a legacy RSA public key held as its
DER bytes (section 3 data model). -/
inductive enc_key_rep where
  | curve25519 (pk : List Nat)
  | legacy (rsa : List Nat)
deriving DecidableEq, Repr

/-- Modelled from the spec: an introduction point: an ordered list of link
specifiers, an authentication-key certificate, and an encryption-key
variant (section 3 data model). -/
structure hs_desc_intro_point where
  link_specifiers : List link_specifier
  auth_key_cert : tor_cert
  enc_key : enc_key_rep
deriving DecidableEq, Repr

/-- The three lines of a PEM-armored block (section 4.6). -/
def pemLines (kind : String) (bs : List Nat) : List (List Nat) :=
  [strB ("-----BEGIN " ++ kind ++ "-----"), b64pad bs,
   strB ("-----END " ++ kind ++ "-----")]

/-- Parse a PEM-armored block given as its three lines, rejecting
mismatched header or footer. -/
def parsePem (kind : String) (h b f : List Nat) : Option (List Nat) :=
  if h = strB ("-----BEGIN " ++ kind ++ "-----") ∧
      f = strB ("-----END " ++ kind ++ "-----") then b64decode b else none

theorem parsePem_pemLines (kind : String) (bs : List Nat)
    (hb : ∀ b ∈ bs, b < 256) :
    parsePem kind (strB ("-----BEGIN " ++ kind ++ "-----")) (b64pad bs)
      (strB ("-----END " ++ kind ++ "-----")) = some bs := by
  rw [parsePem, if_pos ⟨rfl, rfl⟩, b64decode_b64pad bs hb]

/-- Modelled from the spec: the legacy cross-certificate signature: a
hash-based binding computed by the legacy key over the blinded-identity
key bytes and the expiry field (section 4.3). -/
def rsa_cross_sig (rsa blinded : List Nat) (exp : Nat) : List Nat :=
  expandBytes (mixDigest (rsa ++ [254] ++ blinded ++ be32 exp)) 128

/-- Modelled from the spec: byte layout of the legacy cross-certificate:
a 4-byte big-endian expiry followed by the legacy-key signature. -/
def crossCertBytes (rsa blinded : List Nat) (exp : Nat) : List Nat :=
  be32 exp ++ rsa_cross_sig rsa blinded exp

/-- Modelled from the spec: the lines of one encoded introduction-point
record (section 4.4): the link-specifier line, the auth-key certificate
block, the enc-key line or block, and the enc-key-certification block
(a purpose-C certificate for the curve variant, a cross-certificate for
the legacy variant), both issued by the descriptor signing key. -/
def introLines (signing_kp : ed25519_keypair) (blinded_pk : List Nat)
    (now : Nat) (ip : hs_desc_intro_point) : List (List Nat) :=
  [strB "introduction-point " ++ encode_link_specifiers ip.link_specifiers,
   strB "auth-key"] ++
  pemLines "ED25519 CERT" (tor_cert_encode_bytes ip.auth_key_cert) ++
  (match ip.enc_key with
   | .curve25519 pk => [strB "enc-key ntor " ++ b64pad pk]
   | .legacy rsa => strB "enc-key legacy" :: pemLines "RSA PUBLIC KEY" rsa) ++
  [strB "enc-key-certification"] ++
  (match ip.enc_key with
   | .curve25519 pk =>
     pemLines "ED25519 CERT" (tor_cert_encode_bytes
       (tor_cert_create signing_kp CERT_TYPE_CROSS_HS_IP_KEYS pk now
         HS_DESC_CERT_LIFETIME true))
   | .legacy rsa =>
     pemLines "CROSSCERT" (crossCertBytes rsa blinded_pk
       (now + HS_DESC_CERT_LIFETIME)))

/-- Known link-specifier types appearing in a record, for the
duplicate-type check (section 4.5). -/
def knownTypes (specs : List link_specifier) : List Nat :=
  (specs.filter (fun s => lsTypeByte s < 3)).map lsTypeByte

/-- Modelled from the spec: decode the encryption-key line and the
certification block of an introduction-point record.  The variant token
must be `ntor` (inline curve key) or `legacy` (RSA PEM block); any other
variant rejects the record (section 7, UnknownKeyType). -/
def decode_enc_key (blinded_pk : List Nat) (now : Nat)
    (specs : List link_specifier) (cert : tor_cert) (encRest : List Nat)
    (rest : List (List Nat)) : Option hs_desc_intro_point :=
  match dropPrefix? (strB "ntor ") encRest with
  | some keyTok =>
    (match b64decode keyTok with
     | some pk =>
       if pk.length ≠ 32 then none
       else
         match rest with
         | [ckLine, h2, b2, f2, tailEmpty] =>
           if ckLine ≠ strB "enc-key-certification" then none
           else if tailEmpty ≠ [] then none
           else
             match parsePem "ED25519 CERT" h2 b2 f2 with
             | none => none
             | some ckBytes =>
               match tor_cert_parse ckBytes with
               | none => none
               | some ckCert =>
                 if !cert_is_valid now (some ckCert) CERT_TYPE_CROSS_HS_IP_KEYS
                     (strB "introduction point enc key cert") then none
                 else some ⟨specs, cert, .curve25519 pk⟩
         | _ => none
     | none => none)
  | none =>
    if encRest = strB "legacy" then
      match rest with
      | [rh, rb, rf, ckLine, ch, cb, cf, tailEmpty] =>
        if ckLine ≠ strB "enc-key-certification" then none
        else if tailEmpty ≠ [] then none
        else
          match parsePem "RSA PUBLIC KEY" rh rb rf with
          | none => none
          | some rsa =>
            if rsa = [] then none
            else
              match parsePem "CROSSCERT" ch cb cf with
              | none => none
              | some cross =>
                match cross with
                | e1 :: e2 :: e3 :: e4 :: sigPart =>
                  if now < ofBe32 e1 e2 e3 e4 ∧
                      sigPart = rsa_cross_sig rsa blinded_pk
                        (ofBe32 e1 e2 e3 e4) then
                    some ⟨specs, cert, .legacy rsa⟩
                  else none
                | _ => none
      | _ => none
    else none

/-- Modelled from the spec: decode one introduction-point record from its
text (section 4.4): the fixed order is the link-specifier line, the
auth-key certificate, the enc-key line, and the enc-key certification;
any missing, malformed or invalid part rejects the whole record. -/
def decode_introduction_point (blinded_pk : List Nat) (now : Nat)
    (txt : List Nat) : Option hs_desc_intro_point :=
  match splitSep 10 txt with
  | ipLine :: akLine :: h1 :: b1 :: f1 :: encLine :: rest =>
    match dropPrefix? (strB "introduction-point ") ipLine with
    | none => none
    | some lsTok =>
      match decode_link_specifiers lsTok with
      | none => none
      | some specs =>
        if specs = [] then none
        else if !(knownTypes specs).Nodup then none
        else if akLine ≠ strB "auth-key" then none
        else
          match parsePem "ED25519 CERT" h1 b1 f1 with
          | none => none
          | some certBytes =>
            match tor_cert_parse certBytes with
            | none => none
            | some cert =>
              if !cert_is_valid now (some cert) CERT_TYPE_AUTH_HS_IP_KEY
                  (strB "introduction point auth key") then none
              else
                match dropPrefix? (strB "enc-key ") encLine with
                | none => none
                | some encRest =>
                  decode_enc_key blinded_pk now specs cert encRest rest
  | _ => none

theorem decode_enc_key_unknown (blinded_pk : List Nat) (now : Nat)
    (specs : List link_specifier) (cert : tor_cert) (tok : List Nat)
    (rest : List (List Nat))
    (hntor : dropPrefix? (strB "ntor ") tok = none)
    (hleg : tok ≠ strB "legacy") :
    decode_enc_key blinded_pk now specs cert tok rest = none := by
  unfold decode_enc_key
  rw [hntor]
  simp [hleg]

/-- C8: decoding an introduction-point record whose enc-key line names a
variant that is neither `ntor` nor `legacy` fails: whatever the other
lines hold, `decode_introduction_point` produces no introduction-point
object. -/
theorem decode_introduction_point_unknown_enc_key
    (blinded_pk : List Nat) (now : Nat)
    (l1 l2 l3 l4 l5 tok : List Nat) (rest : List (List Nat))
    (hl1 : (10:Nat) ∉ l1) (hl2 : (10:Nat) ∉ l2) (hl3 : (10:Nat) ∉ l3)
    (hl4 : (10:Nat) ∉ l4) (hl5 : (10:Nat) ∉ l5) (htok : (10:Nat) ∉ tok)
    (hrest : ∀ l ∈ rest, (10:Nat) ∉ l)
    (hntor : dropPrefix? (strB "ntor ") tok = none)
    (hleg : tok ≠ strB "legacy") :
    decode_introduction_point blinded_pk now
      (joinLines (l1 :: l2 :: l3 :: l4 :: l5 ::
        (strB "enc-key " ++ tok) :: rest)) = none := by
  have hall : ∀ l ∈ (l1 :: l2 :: l3 :: l4 :: l5 ::
      (strB "enc-key " ++ tok) :: rest), (10:Nat) ∉ l := by
    intro l hl
    simp only [List.mem_cons] at hl
    rcases hl with h | h | h | h | h | h | h
    · exact h ▸ hl1
    · exact h ▸ hl2
    · exact h ▸ hl3
    · exact h ▸ hl4
    · exact h ▸ hl5
    · subst h
      intro hmem
      rcases List.mem_append.mp hmem with hm | hm
      · revert hm; decide
      · exact htok hm
    · exact hrest l h
  unfold decode_introduction_point
  rw [splitSep_joinLines _ hall]
  simp only [List.cons_append]
  cases dropPrefix? (strB "introduction-point ") l1 with
  | none => rfl
  | some lsTok =>
    dsimp only
    cases decode_link_specifiers lsTok with
    | none => rfl
    | some specs =>
      dsimp only
      by_cases hsp : specs = []
      · rw [if_pos hsp]
      · rw [if_neg hsp]
        by_cases hnd : (!(knownTypes specs).Nodup) = true
        · rw [if_pos hnd]
        · rw [if_neg hnd]
          by_cases hak : l2 ≠ strB "auth-key"
          · rw [if_pos hak]
          · rw [if_neg hak]
            cases parsePem "ED25519 CERT" l3 l4 l5 with
            | none => rfl
            | some certBytes =>
              dsimp only
              cases tor_cert_parse certBytes with
              | none => rfl
              | some cert =>
                dsimp only
                by_cases hcv : (!cert_is_valid now (some cert)
                    CERT_TYPE_AUTH_HS_IP_KEY
                    (strB "introduction point auth key")) = true
                · rw [if_pos hcv]
                · rw [if_neg hcv]
                  rw [dropPrefix?_append]
                  exact decode_enc_key_unknown blinded_pk now specs cert tok
                    (rest ++ [[]]) hntor hleg

def sampleAuthCert : tor_cert :=
  tor_cert_create sampleKp CERT_TYPE_AUTH_HS_IP_KEY sampleKey2 1000 3600 true

/-- Witness for C8 at a concrete record whose enc-key line names the
variant `unicorn`. -/
theorem decode_introduction_point_unknown_enc_key_w :
    decode_introduction_point sampleKey2 1000
      (joinLines ((strB "introduction-point " ++
          encode_link_specifiers [.ipv4 16909060 9001]) ::
        strB "auth-key" ::
        strB "-----BEGIN ED25519 CERT-----" ::
        b64pad (tor_cert_encode_bytes sampleAuthCert) ::
        strB "-----END ED25519 CERT-----" ::
        (strB "enc-key " ++
          strB "unicorn bpZKLsuhxP6woDQ3yVyjm5gUKSk7RjfAijT2qrzbQk0=") ::
        [strB "enc-key-certification"])) = none :=
  decode_introduction_point_unknown_enc_key sampleKey2 1000 _ _ _ _ _ _ _
    (by decide) (by decide) (by decide) (by decide) (by decide) (by decide)
    (by decide) (by decide) (by decide)

/-! ## Descriptor data model (spec section 3) -/

/-- Modelled from the spec: the inner (encrypted) section: the accepted
create-handshake flag, an optional authentication-type token list, and an
ordered list of introduction points (section 3 data model). -/
structure hs_desc_encrypted_data where
  create2_ntor : Bool
  auth_types : Option (List (List Nat))
  intro_points : List hs_desc_intro_point
deriving DecidableEq, Repr

/-- Modelled from the spec: the plaintext data of a descriptor: version,
lifetime in seconds, signing-key certificate, signing and blinded
keypairs, and the revision counter (section 3 data model; the transient
encrypted-blob cache is not part of the comparable state). -/
structure hs_desc_plaintext_data where
  version : Nat
  lifetime_sec : Nat
  signing_key_cert : tor_cert
  signing_kp : ed25519_keypair
  blinded_kp : ed25519_keypair
  revision_counter : Nat
deriving DecidableEq, Repr

/-- Modelled from the spec: a descriptor object. -/
structure hs_descriptor where
  plaintext_data : hs_desc_plaintext_data
  encrypted_data : hs_desc_encrypted_data
deriving DecidableEq, Repr

/-- The decoded view of a descriptor: identical in every field except that
the secret halves of the keypairs are not recoverable from the text and
are left empty. -/
def stripSecrets (d : hs_descriptor) : hs_descriptor :=
  { d with plaintext_data :=
    { d.plaintext_data with
      signing_kp := { sk := [], pk := d.plaintext_data.signing_kp.pk }
      blinded_kp := { sk := [], pk := d.plaintext_data.blinded_kp.pk } } }

/-! ## Inner section encoder (spec section 4.2) -/

/-- The header lines of the inner plaintext: the create2-formats line and
the optional authentication-required line. -/
def innerHeaderLines (e : hs_desc_encrypted_data) : List (List Nat) :=
  [strB "create2-formats 2"] ++
  (match e.auth_types with
   | none => []
   | some ts => [strB "authentication-required " ++ joinSep 32 ts])

/-- Modelled from the spec: serialize the inner plaintext (section 4.2):
header lines followed by the introduction-point records in order. -/
def encode_inner (d : hs_descriptor) (now : Nat) : List Nat :=
  joinLines (innerHeaderLines d.encrypted_data ++
    d.encrypted_data.intro_points.flatMap
      (introLines d.plaintext_data.signing_kp d.plaintext_data.blinded_kp.pk
        now))

/-! ## Crypto envelope (spec section 4.7) -/

/-- One keystream byte of the modelled stream cipher. -/
def ksByte (key i : Nat) : Nat := (key * (i + 1) + i) % 256

/-- Modelled from the spec: the stream cipher over a buffer, as byte-wise
XOR against a keystream derived from the symmetric key; applying it twice
restores the input. -/
def streamXor (key : Nat) : Nat → List Nat → List Nat
  | _, [] => []
  | i, b :: rest => (b ^^^ ksByte key i) :: streamXor key (i + 1) rest

/-- Modelled from the spec: the domain-separation string of the envelope
KDF (section 4.7 step 3). -/
def HS_DESC_ENC_KDF_STR : List Nat := strB "hsdir-encrypted-data"

/-- Modelled from the spec: derive the symmetric key from the blinded
public key, the salt and the fixed string (section 4.7 step 3). -/
def kdfEncKey (blinded salt : List Nat) : Nat :=
  mixDigest (blinded ++ salt ++ HS_DESC_ENC_KDF_STR ++ [1])

/-- Modelled from the spec: derive the MAC key likewise. -/
def kdfMacKey (blinded salt : List Nat) : Nat :=
  mixDigest (blinded ++ salt ++ HS_DESC_ENC_KDF_STR ++ [2])

/-- Modelled from the spec: the 32-byte MAC over salt and ciphertext under
the MAC key (section 4.7 step 4). -/
def mac32 (mkey : Nat) (msg : List Nat) : List Nat :=
  expandBytes (mixDigest msg + mkey * 2654435761) 32

/-- Modelled from the spec: the encrypted blob: salt, stream-ciphered
padded plaintext, and the MAC over salt and ciphertext
(section 4.7 step 5). -/
def encrypt_desc_data (blinded salt plaintext : List Nat) : List Nat :=
  salt ++
    streamXor (kdfEncKey blinded salt) 0 (build_plaintext_padding plaintext) ++
    mac32 (kdfMacKey blinded salt)
      (salt ++
        streamXor (kdfEncKey blinded salt) 0 (build_plaintext_padding plaintext))

/-- Strip the zero padding from a decrypted plaintext; the inner grammar
is self-delimited so padding zeros are trimmed at the grammar level
(section 4.7 step 1). -/
def dropTrailingZeros (l : List Nat) : List Nat :=
  (l.reverse.dropWhile (fun c => c == 0)).reverse

/-- Modelled from the spec: authenticated decryption of the encrypted
blob: validate the length, recompute and compare the MAC, decrypt, and
trim the zero padding (section 4.7). -/
def decrypt_desc_data (blinded blob : List Nat) : Option (List Nat) :=
  if !encrypted_data_length_is_valid blob.length then none
  else if blob.drop (blob.length - DIGEST256_LEN) ≠
      mac32 (kdfMacKey blinded (blob.take HS_DESC_ENCRYPTED_SALT_LEN))
        (blob.take HS_DESC_ENCRYPTED_SALT_LEN ++
          (blob.drop HS_DESC_ENCRYPTED_SALT_LEN).take
            (blob.length - HS_DESC_ENCRYPTED_SALT_LEN - DIGEST256_LEN)) then none
  else
    some (dropTrailingZeros
      (streamXor (kdfEncKey blinded (blob.take HS_DESC_ENCRYPTED_SALT_LEN)) 0
        ((blob.drop HS_DESC_ENCRYPTED_SALT_LEN).take
          (blob.length - HS_DESC_ENCRYPTED_SALT_LEN - DIGEST256_LEN))))

/-! ## Outer descriptor codec (spec section 4.1) -/

/-- The outer envelope lines up through the encrypted blob, in the exact
order the grammar fixes: version, lifetime (in minutes), signing-key
certificate block, revision counter, encrypted blob block. -/
def descPrefixLines (d : hs_descriptor) (blob : List Nat) : List (List Nat) :=
  [strB "hs-descriptor " ++ natToDec d.plaintext_data.version,
   strB "descriptor-lifetime " ++ natToDec (d.plaintext_data.lifetime_sec / 60),
   strB "descriptor-signing-key-cert"] ++
  pemLines "ED25519 CERT"
    (tor_cert_encode_bytes d.plaintext_data.signing_key_cert) ++
  [strB "revision-counter " ++ natToDec d.plaintext_data.revision_counter,
   strB "encrypted"] ++
  pemLines "MESSAGE" blob

/-- Modelled from the spec: `hs_desc_encode_descriptor` (section 4.1):
produce the encrypted blob first, assemble the envelope, sign the whole
byte range with the domain-separation prefix, append the signature line,
and fail when the result exceeds the maximum descriptor length.  The salt
stands for the caller-injected randomness and `now` for the injected
clock (sections 5 and 6). -/
def hs_desc_encode_descriptor (d : hs_descriptor) (salt : List Nat)
    (now : Nat) : Option (List Nat) :=
  let blob := encrypt_desc_data d.plaintext_data.blinded_kp.pk salt
    (encode_inner d now)
  let pre := joinLines (descPrefixLines d blob)
  let sig := ed25519_sign_prefixed d.plaintext_data.signing_kp.pk
    HS_DESC_SIG_PREFIX pre
  let txt := pre ++ strB "signature " ++ b64e sig ++ [10]
  if txt.length ≤ HS_DESC_MAX_LEN then some txt else none

/-! ## Inner section decoder (spec section 4.2) -/

/-- Is this line the start of an introduction-point record? -/
def isIntroStart (l : List Nat) : Bool :=
  (dropPrefix? (strB "introduction-point ") l).isSome

/-- One step of the grouping fold: a start line closes the pending group,
any other line joins it. -/
def chunkStep (l : List Nat)
    (acc : List (List (List Nat)) × List (List Nat)) :
    List (List (List Nat)) × List (List Nat) :=
  if isIntroStart l then ((l :: acc.2) :: acc.1, []) else (acc.1, l :: acc.2)

/-- Group the remaining inner lines into introduction-point records: each
group starts at a line with the introduction-point directive; stray lines
before the first record reject the section. -/
def chunkIntroGroups (lines : List (List Nat)) :
    Option (List (List (List Nat))) :=
  let r := lines.foldr chunkStep ([], [])
  if r.2 = [] then some r.1 else none

/-- Decode every item of a list, failing when any item fails. -/
def omap {α β : Type} (f : α → Option β) : List α → Option (List β)
  | [] => some []
  | a :: as =>
    match f a, omap f as with
    | some b, some bs => some (b :: bs)
    | _, _ => none

/-- Decode the introduction-point groups of the inner section after the
header lines have been consumed. -/
def decode_inner_rest (blinded_pk : List Nat) (now : Nat) (create2 : Bool)
    (auth : Option (List (List Nat))) (rest1 : List (List Nat)) :
    Option hs_desc_encrypted_data :=
  match rest1.reverse with
  | [] => none
  | lastL :: revRest =>
    if lastL ≠ [] then none
    else
      match chunkIntroGroups revRest.reverse with
      | none => none
      | some groups =>
        match omap (fun g => decode_introduction_point blinded_pk now
            (joinLines g)) groups with
        | none => none
        | some ips => some ⟨create2, auth, ips⟩

/-- Modelled from the spec: decode the inner plaintext (section 4.2): the
create2-formats line, the optional authentication-required line, then the
ordered introduction-point records; any invalid record rejects the whole
section. -/
def decode_inner (blinded_pk : List Nat) (now : Nat) (txt : List Nat) :
    Option hs_desc_encrypted_data :=
  match splitSep 10 txt with
  | [] => none
  | c2line :: rest0 =>
    match dropPrefix? (strB "create2-formats ") c2line with
    | none => none
    | some fmts =>
      if fmts = [] then none
      else
        match rest0 with
        | [] => none
        | l :: rest1 =>
          match dropPrefix? (strB "authentication-required ") l with
          | some toks =>
            decode_inner_rest blinded_pk now
              ((splitSep 32 fmts).contains (strB "2"))
              (some (splitSep 32 toks)) rest1
          | none =>
            decode_inner_rest blinded_pk now
              ((splitSep 32 fmts).contains (strB "2")) none rest0

/-- Modelled from the spec: `hs_desc_decode_descriptor` (section 4.1):
enforce the maximum length, tokenize the envelope by the exact grammar,
range-check version and lifetime, validate the signing-key certificate,
verify the signature over the signed byte range, open the envelope with
the blinded key taken from the certificate, and decode the inner section.
The subcredential is only used by the client-authenticated path and is
ignored here (section 6 operation 2). -/
def hs_desc_decode_descriptor (txt : List Nat) (_subcred : Option (List Nat))
    (now : Nat) : Option hs_descriptor :=
  if HS_DESC_MAX_LEN < txt.length then none
  else
    match splitSep 10 txt with
    | [l1, l2, l3, h1, b1, f1, l4, l5, h2, b2, f2, sigLine, lastL] =>
      if lastL ≠ [] then none
      else
        match dropPrefix? (strB "hs-descriptor ") l1 with
        | none => none
        | some vtok =>
          match decToNat? vtok with
          | none => none
          | some v =>
            if !hs_desc_is_supported_version v then none
            else
              match dropPrefix? (strB "descriptor-lifetime ") l2 with
              | none => none
              | some mtok =>
                match decToNat? mtok with
                | none => none
                | some m =>
                  if m = 0 ∨ HS_DESC_MAX_LIFETIME_MIN < m then none
                  else if l3 ≠ strB "descriptor-signing-key-cert" then none
                  else
                    match parsePem "ED25519 CERT" h1 b1 f1 with
                    | none => none
                    | some certBytes =>
                      match tor_cert_parse certBytes with
                      | none => none
                      | some cert =>
                        if !cert_is_valid now (some cert)
                            CERT_TYPE_SIGNING_HS_DESC
                            (strB "descriptor signing key") then none
                        else
                          match dropPrefix? (strB "revision-counter ") l4 with
                          | none => none
                          | some rtok =>
                            match decToNat? rtok with
                            | none => none
                            | some rev =>
                              if l5 ≠ strB "encrypted" then none
                              else
                                match parsePem "MESSAGE" h2 b2 f2 with
                                | none => none
                                | some blob =>
                                  match dropPrefix? (strB "signature ") sigLine with
                                  | none => none
                                  | some sigTok =>
                                    match b64decode sigTok with
                                    | none => none
                                    | some sig =>
                                      if sig ≠ ed25519_sign_prefixed
                                          cert.certified_key HS_DESC_SIG_PREFIX
                                          (txt.take (txt.length - (sigLine.length + 1)))
                                        then none
                                      else
                                        match decrypt_desc_data cert.signing_key blob with
                                        | none => none
                                        | some inner =>
                                          match decode_inner cert.signing_key now inner with
                                          | none => none
                                          | some encdata =>
                                            some {
                                              plaintext_data := {
                                                version := v
                                                lifetime_sec := m * 60
                                                signing_key_cert := cert
                                                signing_kp := ⟨[], cert.certified_key⟩
                                                blinded_kp := ⟨[], cert.signing_key⟩
                                                revision_counter := rev }
                                              encrypted_data := encdata }
    | _ => none

/-! ## Wellformedness of descriptor objects -/

/-- A public key is 32 in-range bytes. -/
def keyWF (k : List Nat) : Prop := k.length = 32 ∧ ∀ b ∈ k, b < 256

instance (k : List Nat) : Decidable (keyWF k) := by
  unfold keyWF; infer_instance

/-- Authentication-type tokens carry no newline or space and are in byte
range; a present list is non-empty (the encoder emits the line only
then). -/
def authTypesWF : Option (List (List Nat)) → Prop
  | none => True
  | some ts => ts ≠ [] ∧ ∀ t ∈ ts, (10:Nat) ∉ t ∧ (32:Nat) ∉ t ∧
      ∀ b ∈ t, b < 256

instance (a : Option (List (List Nat))) : Decidable (authTypesWF a) := by
  cases a <;> (unfold authTypesWF; infer_instance)

/-- Wellformedness of one introduction point relative to the validation
clock: at least one link specifier, all specifiers wellformed with
distinct known types, a valid unexpired auth-key certificate of the right
purpose, and an in-range encryption key. -/
def ipWF (now : Nat) (ip : hs_desc_intro_point) : Prop :=
  ip.link_specifiers ≠ [] ∧ ip.link_specifiers.length < 256 ∧
  (∀ s ∈ ip.link_specifiers, lsWF s) ∧
  (knownTypes ip.link_specifiers).Nodup ∧
  certWF ip.auth_key_cert ∧
  cert_is_valid now (some ip.auth_key_cert) CERT_TYPE_AUTH_HS_IP_KEY
    (strB "introduction point auth key") = true ∧
  (match ip.enc_key with
   | .curve25519 pk => keyWF pk
   | .legacy rsa => rsa ≠ [] ∧ ∀ b ∈ rsa, b < 256)

instance (now : Nat) (ip : hs_desc_intro_point) : Decidable (ipWF now ip) := by
  unfold ipWF
  cases ip.enc_key <;> infer_instance

/-- Wellformedness of the caller-supplied salt. -/
def saltWF (salt : List Nat) : Prop :=
  salt.length = HS_DESC_ENCRYPTED_SALT_LEN ∧ ∀ b ∈ salt, b < 256

instance (salt : List Nat) : Decidable (saltWF salt) := by
  unfold saltWF; infer_instance

/-- Wellformedness of a descriptor object relative to the clock: a
supported version, a positive lifetime in whole minutes of at most
12 hours, a valid signing-key certificate binding the signing key under
the blinded key, in-range keys, the create-handshake flag set, wellformed
authentication tokens and introduction points, an inner section that fits
the padded-plaintext maximum, in-range inner bytes, and a clock small
enough that certificate expirations fit 32 bits. -/
def descWF (d : hs_descriptor) (now : Nat) : Prop :=
  d.plaintext_data.version = 3 ∧
  d.plaintext_data.lifetime_sec % 60 = 0 ∧
  0 < d.plaintext_data.lifetime_sec / 60 ∧
  d.plaintext_data.lifetime_sec / 60 ≤ HS_DESC_MAX_LIFETIME_MIN ∧
  certWF d.plaintext_data.signing_key_cert ∧
  cert_is_valid now (some d.plaintext_data.signing_key_cert)
    CERT_TYPE_SIGNING_HS_DESC (strB "descriptor signing key") = true ∧
  d.plaintext_data.signing_key_cert.certified_key =
    d.plaintext_data.signing_kp.pk ∧
  d.plaintext_data.signing_key_cert.signing_key =
    d.plaintext_data.blinded_kp.pk ∧
  keyWF d.plaintext_data.signing_kp.pk ∧
  keyWF d.plaintext_data.blinded_kp.pk ∧
  d.encrypted_data.create2_ntor = true ∧
  authTypesWF d.encrypted_data.auth_types ∧
  (∀ ip ∈ d.encrypted_data.intro_points, ipWF now ip) ∧
  (encode_inner d now).length ≤ HS_DESC_PADDED_PLAINTEXT_MAX_LEN ∧
  (∀ b ∈ encode_inner d now, b < 256) ∧
  now + HS_DESC_CERT_LIFETIME < 4294967296

instance (d : hs_descriptor) (now : Nat) : Decidable (descWF d now) := by
  unfold descWF; infer_instance

/-! ## Stream cipher and envelope lemmas -/

theorem streamXor_length (key : Nat) : ∀ i l, (streamXor key i l).length = l.length := by
  intro i l
  induction l generalizing i with
  | nil => rfl
  | cons b rest ih => simp [streamXor, ih]

theorem streamXor_involution (key : Nat) :
    ∀ i l, (∀ b ∈ l, b < 256) → streamXor key i (streamXor key i l) = l := by
  intro i l
  induction l generalizing i with
  | nil => intro _; rfl
  | cons b rest ih =>
    intro hb
    simp only [streamXor, List.cons.injEq]
    exact ⟨Nat.xor_cancel_right (ksByte key i) b,
      ih (i + 1) (fun x hx => hb x (by simp [hx]))⟩

theorem streamXor_lt (key : Nat) :
    ∀ i l, (∀ b ∈ l, b < 256) → ∀ c ∈ streamXor key i l, c < 256 := by
  intro i l
  induction l generalizing i with
  | nil => intro _ c hc; simp [streamXor] at hc
  | cons b rest ih =>
    intro hb c hc
    simp only [streamXor, List.mem_cons] at hc
    rcases hc with hc | hc
    · have h1 : b < 256 := hb b (by simp)
      have h2 : ksByte key i < 256 := Nat.mod_lt _ (by omega)
      have h256 : (256 : Nat) = 2 ^ 8 := by norm_num
      rw [hc]
      rw [h256] at h1 h2 ⊢
      exact Nat.xor_lt_two_pow h1 h2
    · exact ih (i + 1) (fun x hx => hb x (by simp [hx])) c hc

theorem dropTrailingZeros_pad (pre : List Nat) (k : Nat) :
    dropTrailingZeros (pre ++ [10] ++ List.replicate k 0) = pre ++ [10] := by
  have hrep : ∀ m (xs : List Nat),
      (List.replicate m 0 ++ xs).dropWhile (fun c => c == 0) =
        xs.dropWhile (fun c => c == 0) := by
    intro m
    induction m with
    | zero => intro xs; simp
    | succ p ih =>
      intro xs
      rw [List.replicate_succ, List.cons_append, List.dropWhile_cons]
      simp only [beq_self_eq_true, if_true]
      exact ih xs
  unfold dropTrailingZeros
  rw [List.append_assoc, List.reverse_append, List.reverse_append,
    List.reverse_replicate, List.append_assoc]
  simp only [List.reverse_cons, List.reverse_nil, List.nil_append]
  rw [hrep]
  simp [List.dropWhile_cons]

theorem joinLines_ends_nl (ls : List (List Nat)) (h : ls ≠ []) :
    ∃ pre, joinLines ls = pre ++ [10] := by
  induction ls with
  | nil => simp at h
  | cons l ls ih =>
    cases ls with
    | nil => exact ⟨l, by simp [joinLines]⟩
    | cons m ms =>
      obtain ⟨pre, hpre⟩ := ih (by simp)
      refine ⟨l ++ 10 :: pre, ?_⟩
      rw [joinLines_cons, hpre]
      simp

theorem build_plaintext_padding_bytes (inner : List Nat)
    (h : ∀ b ∈ inner, b < 256) :
    ∀ b ∈ build_plaintext_padding inner, b < 256 := by
  intro b hb
  rw [build_plaintext_padding, List.mem_append] at hb
  rcases hb with hb | hb
  · exact h b hb
  · rw [List.eq_of_mem_replicate hb]; omega

theorem encrypt_desc_data_lt (blinded salt inner : List Nat)
    (hsalt : ∀ b ∈ salt, b < 256) (hinner : ∀ b ∈ inner, b < 256) :
    ∀ b ∈ encrypt_desc_data blinded salt inner, b < 256 := by
  intro b hb
  unfold encrypt_desc_data at hb
  simp only [List.mem_append] at hb
  rcases hb with (hb | hb) | hb
  · exact hsalt b hb
  · exact streamXor_lt _ 0 _ (build_plaintext_padding_bytes inner hinner) b hb
  · exact expandBytes_lt _ _ b hb

theorem encrypt_desc_data_length (blinded salt inner : List Nat)
    (hsalt : salt.length = HS_DESC_ENCRYPTED_SALT_LEN) :
    (encrypt_desc_data blinded salt inner).length =
      HS_DESC_ENCRYPTED_SALT_LEN +
        compute_padded_plaintext_length inner.length + DIGEST256_LEN := by
  unfold encrypt_desc_data
  simp only [List.length_append, streamXor_length, hsalt,
    expandBytes_length, mac32]
  have hge : inner.length ≤ compute_padded_plaintext_length inner.length :=
    ceil_div_mul_ge _ _ (by decide)
  simp [build_plaintext_padding, DIGEST256_LEN]
  omega

theorem compute_padded_mod (L : Nat) :
    compute_padded_plaintext_length L % HS_DESC_PLAINTEXT_PADDING_MULTIPLE = 0 := by
  unfold compute_padded_plaintext_length
  exact Nat.mul_mod_left _ _

theorem compute_padded_min (L : Nat) (h : 0 < L) :
    HS_DESC_PLAINTEXT_PADDING_MULTIPLE ≤ compute_padded_plaintext_length L := by
  have := ceil_div_mul_ge L HS_DESC_PLAINTEXT_PADDING_MULTIPLE (by decide)
  unfold compute_padded_plaintext_length at *
  unfold CEIL_DIV at *
  unfold HS_DESC_PLAINTEXT_PADDING_MULTIPLE at *
  omega

theorem compute_padded_max (L : Nat)
    (h : L ≤ HS_DESC_PADDED_PLAINTEXT_MAX_LEN) :
    compute_padded_plaintext_length L ≤ HS_DESC_PADDED_PLAINTEXT_MAX_LEN := by
  unfold compute_padded_plaintext_length CEIL_DIV
    HS_DESC_PLAINTEXT_PADDING_MULTIPLE at *
  unfold HS_DESC_PADDED_PLAINTEXT_MAX_LEN at *
  have hd : (L + 10000 - 1) / 10000 ≤ 3 := by omega
  omega

theorem decrypt_encrypt_desc_data (blinded salt inner pre : List Nat)
    (hstruct : inner = pre ++ [10])
    (hsalt : saltWF salt)
    (hbytes : ∀ b ∈ inner, b < 256)
    (hlen : inner.length ≤ HS_DESC_PADDED_PLAINTEXT_MAX_LEN) :
    decrypt_desc_data blinded (encrypt_desc_data blinded salt inner) =
      some inner := by
  obtain ⟨hsl, hsb⟩ := hsalt
  have hLpos : 0 < inner.length := by rw [hstruct]; simp
  have hP := compute_padded_min inner.length hLpos
  have hPmax := compute_padded_max inner.length hlen
  have hPmod := compute_padded_mod inner.length
  have hge : inner.length ≤ compute_padded_plaintext_length inner.length :=
    ceil_div_mul_ge _ _ (by decide)
  have hblen := encrypt_desc_data_length blinded salt inner hsl
  set P := compute_padded_plaintext_length inner.length with hPdef
  have hvalid : encrypted_data_length_is_valid
      (encrypt_desc_data blinded salt inner).length = true := by
    rw [hblen]
    unfold encrypted_data_length_is_valid HS_DESC_ENCRYPTED_MIN_LEN
      HS_DESC_ENCRYPTED_SALT_LEN DIGEST256_LEN
      HS_DESC_PLAINTEXT_PADDING_MULTIPLE HS_DESC_PADDED_PLAINTEXT_MAX_LEN at *
    rw [if_neg (by omega)]
    rw [if_neg (by push_neg; omega : ¬(16 + P + 32 - 16 - 32) % 10000 ≠ 0)]
    rw [if_neg (by omega)]
  unfold decrypt_desc_data
  rw [hvalid]
  simp only [Bool.not_true, Bool.false_eq_true, if_false]
  have hpadlen : (build_plaintext_padding inner).length = P := by
    rw [build_plaintext_padding]
    simp only [List.length_append, List.length_replicate]
    omega
  have hctlen : (streamXor (kdfEncKey blinded salt) 0
      (build_plaintext_padding inner)).length = P := by
    rw [streamXor_length, hpadlen]
  set ct := streamXor (kdfEncKey blinded salt) 0
    (build_plaintext_padding inner) with hctdef
  have hsalt16 : HS_DESC_ENCRYPTED_SALT_LEN = salt.length := hsl.symm
  have hblob : encrypt_desc_data blinded salt inner =
      salt ++ (ct ++ mac32 (kdfMacKey blinded salt) (salt ++ ct)) := by
    unfold encrypt_desc_data
    rw [← hctdef]
    simp [List.append_assoc]
  rw [hblob]
  have htake : (salt ++ (ct ++ mac32 (kdfMacKey blinded salt) (salt ++ ct))).take
      HS_DESC_ENCRYPTED_SALT_LEN = salt := List.take_left' hsl
  have hdrop : (salt ++ (ct ++ mac32 (kdfMacKey blinded salt) (salt ++ ct))).drop
      HS_DESC_ENCRYPTED_SALT_LEN = ct ++ mac32 (kdfMacKey blinded salt)
        (salt ++ ct) := List.drop_left' hsl
  have hlenfull : (salt ++ (ct ++ mac32 (kdfMacKey blinded salt)
      (salt ++ ct))).length = 16 + P + 32 := by
    simp only [List.length_append, hctlen, hsl]
    simp [mac32, expandBytes_length, HS_DESC_ENCRYPTED_SALT_LEN, DIGEST256_LEN]
    omega
  rw [htake, hdrop, hlenfull]
  have hctTake : (ct ++ mac32 (kdfMacKey blinded salt) (salt ++ ct)).take
      (16 + P + 32 - HS_DESC_ENCRYPTED_SALT_LEN - DIGEST256_LEN) = ct := by
    have h1 : 16 + P + 32 - HS_DESC_ENCRYPTED_SALT_LEN - DIGEST256_LEN = P := by
      unfold HS_DESC_ENCRYPTED_SALT_LEN DIGEST256_LEN
      omega
    rw [h1]
    exact List.take_left' hctlen
  have hmacDrop : (salt ++ (ct ++ mac32 (kdfMacKey blinded salt)
      (salt ++ ct))).drop (16 + P + 32 - DIGEST256_LEN) =
      mac32 (kdfMacKey blinded salt) (salt ++ ct) := by
    have h2 : 16 + P + 32 - DIGEST256_LEN = ((salt ++ ct)).length := by
      simp only [List.length_append, hctlen, hsl]
      unfold DIGEST256_LEN HS_DESC_ENCRYPTED_SALT_LEN at *
      omega
    rw [h2, ← List.append_assoc]
    exact List.drop_left _ _
  rw [hctTake, hmacDrop]
  rw [if_neg (by simp)]
  have hinv : streamXor (kdfEncKey blinded salt) 0 ct =
      build_plaintext_padding inner := by
    rw [hctdef]
    exact streamXor_involution _ 0 _
      (build_plaintext_padding_bytes inner hbytes)
  rw [hinv]
  have hbp : build_plaintext_padding inner =
      pre ++ [10] ++ List.replicate (P - inner.length) 0 := by
    rw [build_plaintext_padding, ← hPdef, hstruct]
  rw [hbp, dropTrailingZeros_pad, ← hstruct]

/-! ## Round-trip lemmas for the inner section -/

theorem not_mem_append2 {c : Nat} {l1 l2 : List Nat} (h1 : c ∉ l1)
    (h2 : c ∉ l2) : c ∉ l1 ++ l2 := by
  intro h
  rcases List.mem_append.mp h with h | h
  · exact h1 h
  · exact h2 h

theorem natToDec_no_nl (n : Nat) : (10:Nat) ∉ natToDec n := by
  intro h
  have := natToDec_digits n 10 h
  omega

theorem natToDec_no_sp (n : Nat) : (32:Nat) ∉ natToDec n := by
  intro h
  have := natToDec_digits n 32 h
  omega

theorem joinSep_no_nl (ts : List (List Nat))
    (h : ∀ t ∈ ts, (10:Nat) ∉ t) : (10:Nat) ∉ joinSep 32 ts := by
  induction ts with
  | nil => simp [joinSep]
  | cons t ts ih =>
    cases ts with
    | nil => exact h t (by simp)
    | cons u us =>
      show (10:Nat) ∉ t ++ 32 :: joinSep 32 (u :: us)
      refine not_mem_append2 (h t (by simp)) ?_
      intro hm
      rcases List.mem_cons.mp hm with hm | hm
      · omega
      · exact ih (fun x hx => h x (by simp [hx])) hm

theorem dropPrefix?_eq_some (p : List Nat) :
    ∀ l r, dropPrefix? p l = some r → l = p ++ r := by
  induction p with
  | nil =>
    intro l r h
    simp only [dropPrefix?, Option.some.injEq] at h
    simp [h]
  | cons a as ih =>
    intro l r h
    cases l with
    | nil => simp [dropPrefix?] at h
    | cons c cs =>
      simp only [dropPrefix?] at h
      split at h
      · rename_i hac
        rw [List.cons_append, ← ih cs r h, hac]
      · exact absurd h (by simp)

theorem decode_encode_link_specifiers (specs : List link_specifier)
    (hlen : specs.length < 256) (hwf : ∀ s ∈ specs, lsWF s) :
    decode_link_specifiers (encode_link_specifiers specs) = some specs := by
  unfold decode_link_specifiers encode_link_specifiers
  rw [b64decode_b64pad _ (lsListBytes_lt specs hlen hwf)]
  simp only [List.cons_append, List.nil_append]
  exact decode_link_specifiers_bin_flat specs hwf

theorem cert_is_valid_label_any (now : Nat) (c : Option tor_cert)
    (ctype : Nat) (l1 l2 : List Nat) :
    cert_is_valid now c ctype l1 = cert_is_valid now c ctype l2 := rfl

theorem encode_link_specifiers_no_nl (specs : List link_specifier) :
    (10:Nat) ∉ encode_link_specifiers specs := b64pad_no_nl _

theorem crossCertBytes_lt (rsa blinded : List Nat) (exp : Nat) :
    ∀ b ∈ crossCertBytes rsa blinded exp, b < 256 := by
  intro b hb
  rcases List.mem_append.mp hb with hb | hb
  · exact be32_lt exp b hb
  · exact expandBytes_lt _ _ b hb

theorem decode_introLines (skp : ed25519_keypair) (bpk : List Nat)
    (now : Nat) (ip : hs_desc_intro_point) (hip : ipWF now ip)
    (hskp : keyWF skp.pk)
    (hnow : now + HS_DESC_CERT_LIFETIME < 4294967296) :
    decode_introduction_point bpk now
      (joinLines (introLines skp bpk now ip)) = some ip := by
  obtain ⟨specs, cert, ek⟩ := ip
  cases ek with
  | curve25519 pk =>
    obtain ⟨hne, hslen, hswf, hnodup, hcwf, hcv, hek⟩ := hip
    have hlines : introLines skp bpk now ⟨specs, cert, .curve25519 pk⟩ =
        (strB "introduction-point " ++ encode_link_specifiers specs) ::
        strB "auth-key" ::
        strB ("-----BEGIN " ++ "ED25519 CERT" ++ "-----") ::
        b64pad (tor_cert_encode_bytes cert) ::
        strB ("-----END " ++ "ED25519 CERT" ++ "-----") ::
        (strB "enc-key ntor " ++ b64pad pk) ::
        strB "enc-key-certification" ::
        strB ("-----BEGIN " ++ "ED25519 CERT" ++ "-----") ::
        b64pad (tor_cert_encode_bytes (tor_cert_create skp
          CERT_TYPE_CROSS_HS_IP_KEYS pk now HS_DESC_CERT_LIFETIME true)) ::
        [strB ("-----END " ++ "ED25519 CERT" ++ "-----")] := by
      simp [introLines, pemLines]
    rw [hlines]
    have hnl : ∀ l ∈ ((strB "introduction-point " ++
        encode_link_specifiers specs) ::
        strB "auth-key" ::
        strB ("-----BEGIN " ++ "ED25519 CERT" ++ "-----") ::
        b64pad (tor_cert_encode_bytes cert) ::
        strB ("-----END " ++ "ED25519 CERT" ++ "-----") ::
        (strB "enc-key ntor " ++ b64pad pk) ::
        strB "enc-key-certification" ::
        strB ("-----BEGIN " ++ "ED25519 CERT" ++ "-----") ::
        b64pad (tor_cert_encode_bytes (tor_cert_create skp
          CERT_TYPE_CROSS_HS_IP_KEYS pk now HS_DESC_CERT_LIFETIME true)) ::
        [strB ("-----END " ++ "ED25519 CERT" ++ "-----")]), (10:Nat) ∉ l := by
      intro l hl
      simp only [List.mem_cons, List.not_mem_nil, or_false] at hl
      rcases hl with rfl | rfl | rfl | rfl | rfl | rfl | rfl | rfl | rfl | rfl
      · exact not_mem_append2 (by decide) (encode_link_specifiers_no_nl specs)
      · decide
      · decide
      · exact b64pad_no_nl _
      · decide
      · exact not_mem_append2 (by decide) (b64pad_no_nl _)
      · decide
      · decide
      · exact b64pad_no_nl _
      · decide
    unfold decode_introduction_point
    rw [splitSep_joinLines _ hnl]
    simp only [List.cons_append, List.nil_append]
    rw [dropPrefix?_append]
    dsimp only
    rw [decode_encode_link_specifiers specs hslen hswf]
    dsimp only
    rw [if_neg hne, if_neg (by simp [hnodup]), if_neg (by simp)]
    rw [parsePem_pemLines "ED25519 CERT" _ (cert_encode_lt cert hcwf)]
    dsimp only
    rw [tor_cert_parse_encode cert hcwf]
    dsimp only
    rw [if_neg (by simp [hcv])]
    have hsp0 : strB "enc-key ntor " = strB "enc-key " ++ strB "ntor " := by
      decide
    have hsplit : strB "enc-key ntor " ++ b64pad pk =
        strB "enc-key " ++ (strB "ntor " ++ b64pad pk) := by
      rw [hsp0, List.append_assoc]
    rw [hsplit, dropPrefix?_append]
    dsimp only
    unfold decode_enc_key
    rw [dropPrefix?_append]
    dsimp only
    rw [b64decode_b64pad pk hek.2]
    dsimp only
    rw [if_neg (by simp [hek.1])]
    rw [if_neg (by simp), if_neg (by simp)]
    have hcreateWF := tor_cert_create_WF skp CERT_TYPE_CROSS_HS_IP_KEYS pk now
      HS_DESC_CERT_LIFETIME hek.1 hek.2 hskp.1 hskp.2 (by decide) hnow
    rw [parsePem_pemLines "ED25519 CERT" _ (cert_encode_lt _ hcreateWF)]
    dsimp only
    rw [tor_cert_parse_encode _ hcreateWF]
    dsimp only
    rw [if_neg (by
      simp [cert_is_valid_create skp CERT_TYPE_CROSS_HS_IP_KEYS pk now
        HS_DESC_CERT_LIFETIME now _ (Or.inr (by unfold HS_DESC_CERT_LIFETIME; omega))])]
  | legacy rsa =>
    obtain ⟨hne, hslen, hswf, hnodup, hcwf, hcv, hek⟩ := hip
    have hlines : introLines skp bpk now ⟨specs, cert, .legacy rsa⟩ =
        (strB "introduction-point " ++ encode_link_specifiers specs) ::
        strB "auth-key" ::
        strB ("-----BEGIN " ++ "ED25519 CERT" ++ "-----") ::
        b64pad (tor_cert_encode_bytes cert) ::
        strB ("-----END " ++ "ED25519 CERT" ++ "-----") ::
        strB "enc-key legacy" ::
        strB ("-----BEGIN " ++ "RSA PUBLIC KEY" ++ "-----") ::
        b64pad rsa ::
        strB ("-----END " ++ "RSA PUBLIC KEY" ++ "-----") ::
        strB "enc-key-certification" ::
        strB ("-----BEGIN " ++ "CROSSCERT" ++ "-----") ::
        b64pad (crossCertBytes rsa bpk (now + HS_DESC_CERT_LIFETIME)) ::
        [strB ("-----END " ++ "CROSSCERT" ++ "-----")] := by
      simp [introLines, pemLines]
    rw [hlines]
    have hnl : ∀ l ∈ ((strB "introduction-point " ++
        encode_link_specifiers specs) ::
        strB "auth-key" ::
        strB ("-----BEGIN " ++ "ED25519 CERT" ++ "-----") ::
        b64pad (tor_cert_encode_bytes cert) ::
        strB ("-----END " ++ "ED25519 CERT" ++ "-----") ::
        strB "enc-key legacy" ::
        strB ("-----BEGIN " ++ "RSA PUBLIC KEY" ++ "-----") ::
        b64pad rsa ::
        strB ("-----END " ++ "RSA PUBLIC KEY" ++ "-----") ::
        strB "enc-key-certification" ::
        strB ("-----BEGIN " ++ "CROSSCERT" ++ "-----") ::
        b64pad (crossCertBytes rsa bpk (now + HS_DESC_CERT_LIFETIME)) ::
        [strB ("-----END " ++ "CROSSCERT" ++ "-----")]), (10:Nat) ∉ l := by
      intro l hl
      simp only [List.mem_cons, List.not_mem_nil, or_false] at hl
      rcases hl with rfl | rfl | rfl | rfl | rfl | rfl | rfl | rfl | rfl |
        rfl | rfl | rfl | rfl
      · exact not_mem_append2 (by decide) (encode_link_specifiers_no_nl specs)
      · decide
      · decide
      · exact b64pad_no_nl _
      · decide
      · decide
      · decide
      · exact b64pad_no_nl _
      · decide
      · decide
      · decide
      · exact b64pad_no_nl _
      · decide
    unfold decode_introduction_point
    rw [splitSep_joinLines _ hnl]
    simp only [List.cons_append, List.nil_append]
    rw [dropPrefix?_append]
    dsimp only
    rw [decode_encode_link_specifiers specs hslen hswf]
    dsimp only
    rw [if_neg hne, if_neg (by simp [hnodup]), if_neg (by simp)]
    rw [parsePem_pemLines "ED25519 CERT" _ (cert_encode_lt cert hcwf)]
    dsimp only
    rw [tor_cert_parse_encode cert hcwf]
    dsimp only
    rw [if_neg (by simp [hcv])]
    have hsplit : strB "enc-key legacy" =
        strB "enc-key " ++ strB "legacy" := by decide
    rw [hsplit, dropPrefix?_append]
    dsimp only
    unfold decode_enc_key
    have hnontor : dropPrefix? (strB "ntor ") (strB "legacy") = none := by decide
    rw [hnontor]
    dsimp only
    rw [if_pos rfl]
    rw [parsePem_pemLines "RSA PUBLIC KEY" _ hek.2]
    dsimp only
    rw [if_neg (by simp), if_neg (by simp), if_neg hek.1]
    rw [parsePem_pemLines "CROSSCERT" _ (crossCertBytes_lt rsa bpk _)]
    dsimp only
    unfold crossCertBytes be32
    simp only [List.cons_append, List.nil_append]
    have hofbe : ofBe32 ((now + HS_DESC_CERT_LIFETIME) / 16777216 % 256)
        ((now + HS_DESC_CERT_LIFETIME) / 65536 % 256)
        ((now + HS_DESC_CERT_LIFETIME) / 256 % 256)
        ((now + HS_DESC_CERT_LIFETIME) % 256) = now + HS_DESC_CERT_LIFETIME :=
      be32_spec _ hnow
    rw [hofbe]
    rw [if_pos ⟨by unfold HS_DESC_CERT_LIFETIME; omega, rfl⟩]

theorem foldr_chunkStep_nonstart (ls : List (List Nat))
    (acc : List (List (List Nat)) × List (List Nat))
    (h : ∀ x ∈ ls, isIntroStart x = false) :
    ls.foldr chunkStep acc = (acc.1, ls ++ acc.2) := by
  induction ls with
  | nil => rfl
  | cons l ls ih =>
    rw [List.foldr_cons, ih (fun x hx => h x (by simp [hx]))]
    unfold chunkStep
    rw [h l (by simp)]
    simp

theorem foldr_chunkStep_flatten (gs : List (List (List Nat)))
    (hgs : ∀ g ∈ gs, ∃ l ls, g = l :: ls ∧ isIntroStart l = true ∧
      ∀ x ∈ ls, isIntroStart x = false) :
    gs.flatten.foldr chunkStep ([], []) = (gs, []) := by
  induction gs with
  | nil => rfl
  | cons g gs ih =>
    obtain ⟨l, ls, hg, hstart, hrest⟩ := hgs g (by simp)
    rw [List.flatten_cons, List.foldr_append,
      ih (fun x hx => hgs x (by simp [hx])), hg, List.foldr_cons,
      foldr_chunkStep_nonstart ls (gs, []) hrest]
    unfold chunkStep
    rw [hstart]
    simp

theorem chunkIntroGroups_flatten (gs : List (List (List Nat)))
    (hgs : ∀ g ∈ gs, ∃ l ls, g = l :: ls ∧ isIntroStart l = true ∧
      ∀ x ∈ ls, isIntroStart x = false) :
    chunkIntroGroups gs.flatten = some gs := by
  unfold chunkIntroGroups
  rw [foldr_chunkStep_flatten gs hgs]
  simp

theorem omap_map {α β : Type} (f : β → Option α) (h : α → β) :
    ∀ l : List α, (∀ x ∈ l, f (h x) = some x) → omap f (l.map h) = some l := by
  intro l
  induction l with
  | nil => intro _; rfl
  | cons a as ih =>
    intro hx
    rw [List.map_cons]
    unfold omap
    rw [hx a (by simp), ih (fun x hmem => hx x (by simp [hmem]))]

theorem dropPrefix?_none_of_head (p l : List Nat) (hp hl : Nat)
    (hph : p.head? = some hp) (hlh : l.head? = some hl) (hne : hp ≠ hl) :
    dropPrefix? p l = none := by
  cases hres : dropPrefix? p l with
  | none => rfl
  | some r =>
    have heq := dropPrefix?_eq_some p l r hres
    cases p with
    | nil => simp at hph
    | cons a as =>
      rw [heq] at hlh
      simp only [List.cons_append, List.head?_cons, Option.some.injEq] at hlh
      simp only [List.head?_cons, Option.some.injEq] at hph
      exact (hne (hph ▸ hlh)).elim

theorem isIntroStart_append (x : List Nat) :
    isIntroStart (strB "introduction-point " ++ x) = true := by
  unfold isIntroStart
  rw [dropPrefix?_append]
  rfl

theorem isIntroStart_mem_dash (l : List Nat) (h : isIntroStart l = true) :
    (45:Nat) ∈ l := by
  unfold isIntroStart at h
  cases hres : dropPrefix? (strB "introduction-point ") l with
  | none => rw [hres] at h; simp at h
  | some r =>
    rw [dropPrefix?_eq_some _ _ _ hres, List.mem_append]
    left
    decide

theorem b64pad_no_dash (bs : List Nat) : (45:Nat) ∉ b64pad bs := by
  intro hmem
  rw [b64pad, List.mem_append] at hmem
  rcases hmem with hmem | hmem
  · obtain ⟨v, hv⟩ := b64e_mem bs 45 hmem
    exact (b64Char_ascii v).2.2.2.1 hv.symm
  · exact absurd (List.eq_of_mem_replicate hmem) (by decide)

theorem isIntroStart_b64pad (bs : List Nat) :
    isIntroStart (b64pad bs) = false := by
  cases hres : isIntroStart (b64pad bs) with
  | false => rfl
  | true => exact absurd (isIntroStart_mem_dash _ hres) (b64pad_no_dash bs)

theorem isIntroStart_head_ne (l : List Nat) (c : Nat)
    (hlh : l.head? = some c) (hne : c ≠ 105) : isIntroStart l = false := by
  unfold isIntroStart
  rw [dropPrefix?_none_of_head (strB "introduction-point ") l 105 c rfl hlh
    (fun h => hne h.symm)]
  rfl

theorem introLines_good (skp : ed25519_keypair) (bpk : List Nat)
    (now : Nat) (ip : hs_desc_intro_point) :
    ∃ l ls, introLines skp bpk now ip = l :: ls ∧ isIntroStart l = true ∧
      ∀ x ∈ ls, isIntroStart x = false := by
  obtain ⟨specs, cert, ek⟩ := ip
  cases ek with
  | curve25519 pk =>
    refine ⟨strB "introduction-point " ++ encode_link_specifiers specs,
      [strB "auth-key", strB "-----BEGIN ED25519 CERT-----",
       b64pad (tor_cert_encode_bytes cert), strB "-----END ED25519 CERT-----",
       strB "enc-key ntor " ++ b64pad pk, strB "enc-key-certification",
       strB "-----BEGIN ED25519 CERT-----",
       b64pad (tor_cert_encode_bytes (tor_cert_create skp
         CERT_TYPE_CROSS_HS_IP_KEYS pk now HS_DESC_CERT_LIFETIME true)),
       strB "-----END ED25519 CERT-----"],
      by simp [introLines, pemLines], isIntroStart_append _, ?_⟩
    intro x hx
    simp only [List.mem_cons, List.not_mem_nil, or_false] at hx
    rcases hx with rfl | rfl | rfl | rfl | rfl | rfl | rfl | rfl | rfl
    · exact isIntroStart_head_ne _ 97 rfl (by omega)
    · exact isIntroStart_head_ne _ 45 rfl (by omega)
    · exact isIntroStart_b64pad _
    · exact isIntroStart_head_ne _ 45 rfl (by omega)
    · exact isIntroStart_head_ne _ 101 rfl (by omega)
    · exact isIntroStart_head_ne _ 101 rfl (by omega)
    · exact isIntroStart_head_ne _ 45 rfl (by omega)
    · exact isIntroStart_b64pad _
    · exact isIntroStart_head_ne _ 45 rfl (by omega)
  | legacy rsa =>
    refine ⟨strB "introduction-point " ++ encode_link_specifiers specs,
      [strB "auth-key", strB "-----BEGIN ED25519 CERT-----",
       b64pad (tor_cert_encode_bytes cert), strB "-----END ED25519 CERT-----",
       strB "enc-key legacy", strB "-----BEGIN RSA PUBLIC KEY-----",
       b64pad rsa, strB "-----END RSA PUBLIC KEY-----",
       strB "enc-key-certification", strB "-----BEGIN CROSSCERT-----",
       b64pad (crossCertBytes rsa bpk (now + HS_DESC_CERT_LIFETIME)),
       strB "-----END CROSSCERT-----"],
      by simp [introLines, pemLines], isIntroStart_append _, ?_⟩
    intro x hx
    simp only [List.mem_cons, List.not_mem_nil, or_false] at hx
    rcases hx with rfl | rfl | rfl | rfl | rfl | rfl | rfl | rfl | rfl |
      rfl | rfl | rfl
    · exact isIntroStart_head_ne _ 97 rfl (by omega)
    · exact isIntroStart_head_ne _ 45 rfl (by omega)
    · exact isIntroStart_b64pad _
    · exact isIntroStart_head_ne _ 45 rfl (by omega)
    · exact isIntroStart_head_ne _ 101 rfl (by omega)
    · exact isIntroStart_head_ne _ 45 rfl (by omega)
    · exact isIntroStart_b64pad _
    · exact isIntroStart_head_ne _ 45 rfl (by omega)
    · exact isIntroStart_head_ne _ 101 rfl (by omega)
    · exact isIntroStart_head_ne _ 45 rfl (by omega)
    · exact isIntroStart_b64pad _
    · exact isIntroStart_head_ne _ 45 rfl (by omega)

theorem introLines_no_nl (skp : ed25519_keypair) (bpk : List Nat)
    (now : Nat) (ip : hs_desc_intro_point) :
    ∀ l ∈ introLines skp bpk now ip, (10:Nat) ∉ l := by
  obtain ⟨specs, cert, ek⟩ := ip
  cases ek with
  | curve25519 pk =>
    intro l hl
    simp only [introLines, pemLines, List.cons_append, List.nil_append,
      List.mem_cons, List.not_mem_nil, or_false] at hl
    rcases hl with rfl | rfl | rfl | rfl | rfl | rfl | rfl | rfl | rfl | rfl
    · exact not_mem_append2 (by decide) (encode_link_specifiers_no_nl specs)
    · decide
    · decide
    · exact b64pad_no_nl _
    · decide
    · exact not_mem_append2 (by decide) (b64pad_no_nl _)
    · decide
    · decide
    · exact b64pad_no_nl _
    · decide
  | legacy rsa =>
    intro l hl
    simp only [introLines, pemLines, List.cons_append, List.nil_append,
      List.mem_cons, List.not_mem_nil, or_false] at hl
    rcases hl with rfl | rfl | rfl | rfl | rfl | rfl | rfl | rfl | rfl |
      rfl | rfl | rfl | rfl
    · exact not_mem_append2 (by decide) (encode_link_specifiers_no_nl specs)
    · decide
    · decide
    · exact b64pad_no_nl _
    · decide
    · decide
    · decide
    · exact b64pad_no_nl _
    · decide
    · decide
    · decide
    · exact b64pad_no_nl _
    · decide

theorem dropPrefix?_auth_of_introStart (l : List Nat)
    (h : isIntroStart l = true) :
    dropPrefix? (strB "authentication-required ") l = none := by
  unfold isIntroStart at h
  cases hres : dropPrefix? (strB "introduction-point ") l with
  | none => rw [hres] at h; simp at h
  | some r =>
    have heq := dropPrefix?_eq_some _ _ _ hres
    refine dropPrefix?_none_of_head _ _ 97 105 rfl ?_ (by omega)
    rw [heq]
    rfl

theorem decode_inner_rest_flatten (bpk : List Nat) (now : Nat) (c2 : Bool)
    (auth : Option (List (List Nat))) (gs : List (List (List Nat)))
    (ips : List hs_desc_intro_point)
    (hgs : ∀ g ∈ gs, ∃ l ls, g = l :: ls ∧ isIntroStart l = true ∧
      ∀ x ∈ ls, isIntroStart x = false)
    (homap : omap (fun g => decode_introduction_point bpk now
      (joinLines g)) gs = some ips) :
    decode_inner_rest bpk now c2 auth (gs.flatten ++ [[]]) =
      some ⟨c2, auth, ips⟩ := by
  unfold decode_inner_rest
  have hrev : (gs.flatten ++ [[]]).reverse = [] :: gs.flatten.reverse := by
    simp
  rw [hrev]
  dsimp only
  rw [if_neg (by simp), List.reverse_reverse, chunkIntroGroups_flatten gs hgs]
  dsimp only
  rw [homap]

theorem decode_inner_rest_ips (skp : ed25519_keypair) (bpk : List Nat)
    (now : Nat) (c2 : Bool) (auth : Option (List (List Nat)))
    (ips : List hs_desc_intro_point)
    (hips : ∀ ip ∈ ips, ipWF now ip) (hskp : keyWF skp.pk)
    (hnow : now + HS_DESC_CERT_LIFETIME < 4294967296) :
    decode_inner_rest bpk now c2 auth
      (ips.flatMap (introLines skp bpk now) ++ [[]]) =
      some ⟨c2, auth, ips⟩ := by
  have hflat : ips.flatMap (introLines skp bpk now) =
      (ips.map (introLines skp bpk now)).flatten := rfl
  rw [hflat]
  refine decode_inner_rest_flatten bpk now c2 auth _ ips ?_ ?_
  · intro g hg
    obtain ⟨ip, _, rfl⟩ := List.mem_map.mp hg
    exact introLines_good skp bpk now ip
  · exact omap_map _ _ ips (fun ip hip => decode_introLines skp bpk now ip
      (hips ip hip) hskp hnow)

theorem decode_inner_encode_inner (d : hs_descriptor) (now : Nat)
    (h : descWF d now) :
    decode_inner d.plaintext_data.blinded_kp.pk now (encode_inner d now) =
      some d.encrypted_data := by
  obtain ⟨hv, hmod, hmpos, hmle, hcwf, hcv, hck, hbk, hskp, hbkp, hc2,
    hauth, hips, hil, hib, hnow⟩ := h
  obtain ⟨pd, e⟩ := d
  obtain ⟨c2f, auth, ips⟩ := e
  have hc2f : c2f = true := hc2
  subst hc2f
  have hauth' : authTypesWF auth := hauth
  have hips' : ∀ x ∈ ips, ipWF now x := hips
  have hskp' : keyWF pd.signing_kp.pk := hskp
  show decode_inner pd.blinded_kp.pk now
      (encode_inner ⟨pd, ⟨true, auth, ips⟩⟩ now) = some ⟨true, auth, ips⟩
  have henc : encode_inner ⟨pd, ⟨true, auth, ips⟩⟩ now =
      joinLines (innerHeaderLines ⟨true, auth, ips⟩ ++
        ips.flatMap (introLines pd.signing_kp pd.blinded_kp.pk now)) := rfl
  have hc2l : strB "create2-formats 2" =
      strB "create2-formats " ++ strB "2" := by decide
  have hcv2 : (splitSep 32 (strB "2")).contains (strB "2") = true := by decide
  cases auth with
  | none =>
    have hhdr : innerHeaderLines ⟨true, none, ips⟩ ++
        ips.flatMap (introLines pd.signing_kp pd.blinded_kp.pk now) =
        strB "create2-formats 2" ::
          ips.flatMap (introLines pd.signing_kp pd.blinded_kp.pk now) := rfl
    have hnl : ∀ l ∈ strB "create2-formats 2" ::
        ips.flatMap (introLines pd.signing_kp pd.blinded_kp.pk now),
        (10:Nat) ∉ l := by
      intro l hl
      rcases List.mem_cons.mp hl with rfl | hl
      · decide
      · obtain ⟨ip, hipmem, hmem⟩ := List.mem_flatMap.mp hl
        exact introLines_no_nl pd.signing_kp pd.blinded_kp.pk now ip l hmem
    unfold decode_inner
    rw [henc, hhdr, splitSep_joinLines _ hnl]
    simp only [List.cons_append]
    rw [hc2l, dropPrefix?_append]
    dsimp only
    rw [if_neg (by decide : ¬(strB "2" = []))]
    cases ips with
    | nil =>
      simp only [List.flatMap_nil, List.nil_append]
      rw [show dropPrefix? (strB "authentication-required ")
        ([] : List Nat) = none from rfl]
      dsimp only
      have hres := decode_inner_rest_ips pd.signing_kp pd.blinded_kp.pk now
        ((splitSep 32 (strB "2")).contains (strB "2")) none [] (by simp)
        hskp' hnow
      rw [hcv2] at hres ⊢
      simpa using hres
    | cons ip rest =>
      obtain ⟨l0, ls0, hg, hstart, hrest0⟩ :=
        introLines_good pd.signing_kp pd.blinded_kp.pk now ip
      rw [List.flatMap_cons, hg]
      simp only [List.cons_append, List.append_assoc]
      rw [dropPrefix?_auth_of_introStart l0 hstart]
      dsimp only
      have hres := decode_inner_rest_ips pd.signing_kp pd.blinded_kp.pk now
        ((splitSep 32 (strB "2")).contains (strB "2")) none (ip :: rest)
        hips' hskp' hnow
      rw [List.flatMap_cons, hg] at hres
      rw [hcv2] at hres ⊢
      simpa [List.cons_append, List.append_assoc] using hres
  | some ts =>
    have hauth2 : ts ≠ [] ∧ ∀ t ∈ ts, (10:Nat) ∉ t ∧ (32:Nat) ∉ t ∧
        ∀ b ∈ t, b < 256 := hauth'
    have hhdr : innerHeaderLines ⟨true, some ts, ips⟩ ++
        ips.flatMap (introLines pd.signing_kp pd.blinded_kp.pk now) =
        strB "create2-formats 2" ::
          (strB "authentication-required " ++ joinSep 32 ts) ::
          ips.flatMap (introLines pd.signing_kp pd.blinded_kp.pk now) := rfl
    have hnl : ∀ l ∈ strB "create2-formats 2" ::
        (strB "authentication-required " ++ joinSep 32 ts) ::
        ips.flatMap (introLines pd.signing_kp pd.blinded_kp.pk now),
        (10:Nat) ∉ l := by
      intro l hl
      rcases List.mem_cons.mp hl with rfl | hl
      · decide
      rcases List.mem_cons.mp hl with rfl | hl
      · exact not_mem_append2 (by decide)
          (joinSep_no_nl ts (fun t ht => (hauth2.2 t ht).1))
      obtain ⟨ip, hipmem, hmem⟩ := List.mem_flatMap.mp hl
      exact introLines_no_nl pd.signing_kp pd.blinded_kp.pk now ip l hmem
    unfold decode_inner
    rw [henc, hhdr, splitSep_joinLines _ hnl]
    simp only [List.cons_append]
    rw [hc2l, dropPrefix?_append]
    dsimp only
    rw [if_neg (by decide : ¬(strB "2" = []))]
    rw [dropPrefix?_append]
    dsimp only
    rw [splitSep_joinSep 32 ts hauth2.1 (fun t ht => (hauth2.2 t ht).2.1)]
    rw [hcv2]
    exact decode_inner_rest_ips pd.signing_kp pd.blinded_kp.pk now true
      (some ts) ips hips' hskp' hnow

/-- C1: the descriptor codec round-trips: every descriptor object that
`hs_desc_encode_descriptor` successfully encodes is decoded back by
`hs_desc_decode_descriptor` at the same clock to a descriptor equal in
every field — version, lifetime, signing-key certificate, signing and
blinded public keys, revision counter, create2 format flag,
authentication-type list, and the ordered introduction points with their
auth-key certificates, encryption-key variant and material, and link
specifiers — with only the secret key halves (never recoverable from the
text, and excluded from comparison like the transient blob cache) left
empty. -/
theorem hs_desc_encode_decode_descriptor (d : hs_descriptor)
    (salt : List Nat) (now : Nat) (sub : Option (List Nat)) (txt : List Nat)
    (hwf : descWF d now) (hsalt : saltWF salt)
    (henc : hs_desc_encode_descriptor d salt now = some txt) :
    hs_desc_decode_descriptor txt sub now = some (stripSecrets d) := by
  have hwf0 := hwf
  obtain ⟨hv, hmod, hmpos, hmle, hcwf, hcv, hck, hbk, hskp, hbkp, hc2,
    hauth, hips, hil, hib, hnow⟩ := hwf0
  set blob := encrypt_desc_data d.plaintext_data.blinded_kp.pk salt
    (encode_inner d now) with hblob
  set pre := joinLines (descPrefixLines d blob) with hpre
  set sig := ed25519_sign_prefixed d.plaintext_data.signing_kp.pk
    HS_DESC_SIG_PREFIX pre with hsig
  have henc' : (if (pre ++ strB "signature " ++ b64e sig ++ [10]).length ≤
      HS_DESC_MAX_LEN then
      some (pre ++ strB "signature " ++ b64e sig ++ [10]) else none) =
      some txt := henc
  by_cases hle : (pre ++ strB "signature " ++ b64e sig ++ [10]).length ≤
      HS_DESC_MAX_LEN
  · rw [if_pos hle] at henc'
    injection henc' with htxt
    subst htxt
    unfold hs_desc_decode_descriptor
    rw [if_neg (Nat.not_lt.mpr hle)]
    have hlines : descPrefixLines d blob =
        [strB "hs-descriptor " ++ natToDec d.plaintext_data.version,
         strB "descriptor-lifetime " ++
           natToDec (d.plaintext_data.lifetime_sec / 60),
         strB "descriptor-signing-key-cert",
         strB "-----BEGIN ED25519 CERT-----",
         b64pad (tor_cert_encode_bytes d.plaintext_data.signing_key_cert),
         strB "-----END ED25519 CERT-----",
         strB "revision-counter " ++
           natToDec d.plaintext_data.revision_counter,
         strB "encrypted",
         strB "-----BEGIN MESSAGE-----",
         b64pad blob,
         strB "-----END MESSAGE-----"] := by
      simp [descPrefixLines, pemLines]
    have hnl : ∀ l ∈ descPrefixLines d blob ++
        [strB "signature " ++ b64e sig], (10:Nat) ∉ l := by
      intro l hl
      rw [hlines] at hl
      simp only [List.mem_append, List.mem_cons, List.not_mem_nil,
        or_false] at hl
      rcases hl with (rfl | rfl | rfl | rfl | rfl | rfl | rfl | rfl | rfl |
        rfl | rfl) | rfl
      · exact not_mem_append2 (by decide) (natToDec_no_nl _)
      · exact not_mem_append2 (by decide) (natToDec_no_nl _)
      · decide
      · decide
      · exact b64pad_no_nl _
      · decide
      · exact not_mem_append2 (by decide) (natToDec_no_nl _)
      · decide
      · decide
      · exact b64pad_no_nl _
      · decide
      · exact not_mem_append2 (by decide) (b64e_no_nl _)
    have hjoin : pre ++ strB "signature " ++ b64e sig ++ [10] =
        joinLines (descPrefixLines d blob ++
          [strB "signature " ++ b64e sig]) := by
      rw [joinLines_append, ← hpre]
      simp [joinLines, List.append_assoc]
    have hsplit : splitSep 10 (pre ++ strB "signature " ++ b64e sig ++ [10]) =
        [strB "hs-descriptor " ++ natToDec d.plaintext_data.version,
         strB "descriptor-lifetime " ++
           natToDec (d.plaintext_data.lifetime_sec / 60),
         strB "descriptor-signing-key-cert",
         strB "-----BEGIN ED25519 CERT-----",
         b64pad (tor_cert_encode_bytes d.plaintext_data.signing_key_cert),
         strB "-----END ED25519 CERT-----",
         strB "revision-counter " ++
           natToDec d.plaintext_data.revision_counter,
         strB "encrypted",
         strB "-----BEGIN MESSAGE-----",
         b64pad blob,
         strB "-----END MESSAGE-----",
         strB "signature " ++ b64e sig, []] := by
      rw [hjoin, splitSep_joinLines _ hnl, hlines]
      simp
    rw [hsplit]
    dsimp only
    rw [if_neg (by simp : ¬(([]:List Nat) ≠ []))]
    rw [dropPrefix?_append]
    dsimp only
    rw [decToNat?_natToDec]
    dsimp only
    have hsup : hs_desc_is_supported_version d.plaintext_data.version =
        true := by
      rw [hv]
      decide
    rw [hsup]
    simp only [Bool.not_true, Bool.false_eq_true, if_false]
    rw [dropPrefix?_append]
    dsimp only
    rw [decToNat?_natToDec]
    dsimp only
    have h720 : HS_DESC_MAX_LIFETIME_MIN = 720 := rfl
    rw [if_neg (by omega : ¬(d.plaintext_data.lifetime_sec / 60 = 0 ∨
      HS_DESC_MAX_LIFETIME_MIN < d.plaintext_data.lifetime_sec / 60))]
    rw [if_neg (by simp : ¬(strB "descriptor-signing-key-cert" ≠
      strB "descriptor-signing-key-cert"))]
    have hpem1 : parsePem "ED25519 CERT"
        (strB "-----BEGIN ED25519 CERT-----")
        (b64pad (tor_cert_encode_bytes d.plaintext_data.signing_key_cert))
        (strB "-----END ED25519 CERT-----") =
        some (tor_cert_encode_bytes d.plaintext_data.signing_key_cert) :=
      parsePem_pemLines "ED25519 CERT" _ (cert_encode_lt _ hcwf)
    rw [hpem1]
    dsimp only
    rw [tor_cert_parse_encode _ hcwf]
    dsimp only
    rw [hcv]
    simp only [Bool.not_true, Bool.false_eq_true, if_false]
    rw [dropPrefix?_append]
    dsimp only
    rw [decToNat?_natToDec]
    dsimp only
    rw [if_neg (by simp : ¬(strB "encrypted" ≠ strB "encrypted"))]
    have hblt : ∀ b ∈ blob, b < 256 := by
      rw [hblob]
      exact encrypt_desc_data_lt _ _ _ hsalt.2 hib
    have hpem2 : parsePem "MESSAGE" (strB "-----BEGIN MESSAGE-----")
        (b64pad blob) (strB "-----END MESSAGE-----") = some blob :=
      parsePem_pemLines "MESSAGE" _ hblt
    rw [hpem2]
    dsimp only
    rw [dropPrefix?_append]
    dsimp only
    have hsiglt : ∀ b ∈ sig, b < 256 := by
      rw [hsig]
      exact ed25519_sig_bytes_lt _ _
    rw [b64decode_b64e sig hsiglt]
    dsimp only
    have hlen1 : (pre ++ strB "signature " ++ b64e sig ++ [10]).length -
        ((strB "signature " ++ b64e sig).length + 1) = pre.length := by
      simp [List.length_append]
      omega
    have htake : (pre ++ strB "signature " ++ b64e sig ++ [10]).take
        ((pre ++ strB "signature " ++ b64e sig ++ [10]).length -
          ((strB "signature " ++ b64e sig).length + 1)) = pre := by
      rw [hlen1]
      have hassoc : pre ++ strB "signature " ++ b64e sig ++ [10] =
          pre ++ (strB "signature " ++ b64e sig ++ [10]) := by
        simp [List.append_assoc]
      rw [hassoc]
      exact List.take_left' rfl
    have hE : ed25519_sign_prefixed
        d.plaintext_data.signing_key_cert.certified_key HS_DESC_SIG_PREFIX
        ((pre ++ strB "signature " ++ b64e sig ++ [10]).take
          ((pre ++ strB "signature " ++ b64e sig ++ [10]).length -
            ((strB "signature " ++ b64e sig).length + 1))) = sig := by
      rw [htake, hck, hsig]
    rw [if_neg (not_not_intro hE.symm)]
    rw [hbk, hblob]
    have hne0 : innerHeaderLines d.encrypted_data ++
        d.encrypted_data.intro_points.flatMap
          (introLines d.plaintext_data.signing_kp
            d.plaintext_data.blinded_kp.pk now) ≠ [] := by
      simp [innerHeaderLines]
    obtain ⟨pre2, hpre2⟩ := joinLines_ends_nl _ hne0
    have hstruct : encode_inner d now = pre2 ++ [10] := hpre2
    rw [decrypt_encrypt_desc_data d.plaintext_data.blinded_kp.pk salt
      (encode_inner d now) pre2 hstruct hsalt hib hil]
    dsimp only
    rw [decode_inner_encode_inner d now hwf]
    dsimp only
    rw [Nat.div_mul_cancel (Nat.dvd_of_mod_eq_zero hmod), hck]
    rfl
  · rw [if_neg hle] at henc'
    simp at henc'

theorem b64e_length_le3 (bs : List Nat) :
    3 * (b64e bs).length ≤ 4 * bs.length + 6 := by
  induction bs using b64e.induct with
  | case1 => simp [b64e]
  | case2 a => simp [b64e]
  | case3 a b => simp [b64e]
  | case4 a b c rest ih =>
    simp only [b64e, List.length_cons]
    omega

theorem b64pad_length_le3 (bs : List Nat) :
    3 * (b64pad bs).length ≤ 4 * bs.length + 12 := by
  have h1 := b64e_length_le3 bs
  have h2 : (3 - bs.length % 3) % 3 ≤ 2 := by omega
  simp only [b64pad, List.length_append, List.length_replicate]
  omega

/-- A sample blinded keypair for the round-trip witness. -/
def sampleBlindedKp : ed25519_keypair :=
  ⟨List.replicate 32 11, List.replicate 32 6⟩

/-- A sample descriptor-signing certificate: the blinded key certifies the
signing key. -/
def sampleDescCert : tor_cert :=
  tor_cert_create sampleBlindedKp CERT_TYPE_SIGNING_HS_DESC
    (List.replicate 32 3) 1000 HS_DESC_CERT_LIFETIME true

/-- A sample introduction point with a curve25519 encryption key. -/
def sampleIP : hs_desc_intro_point :=
  { link_specifiers := sampleSpecs
    auth_key_cert := tor_cert_create sampleKp CERT_TYPE_AUTH_HS_IP_KEY
      (List.replicate 32 13) 1000 HS_DESC_CERT_LIFETIME true
    enc_key := .curve25519 (List.replicate 32 15) }

/-- A sample descriptor object for the round-trip witness. -/
def sampleDesc : hs_descriptor :=
  { plaintext_data :=
    { version := 3
      lifetime_sec := 10800
      signing_key_cert := sampleDescCert
      signing_kp := sampleKp
      blinded_kp := sampleBlindedKp
      revision_counter := 42 }
    encrypted_data :=
    { create2_ntor := true
      auth_types := some [strB "ed25519"]
      intro_points := [sampleIP] } }

/-- A sample salt for the round-trip witness. -/
def sampleSalt : List Nat := List.replicate 16 9

theorem hs_desc_encode_isSome (d : hs_descriptor) (salt : List Nat)
    (now : Nat)
    (hpre : (joinLines (descPrefixLines d
      (encrypt_desc_data d.plaintext_data.blinded_kp.pk salt
        (encode_inner d now)))).length + 98 ≤ HS_DESC_MAX_LEN) :
    (hs_desc_encode_descriptor d salt now).isSome = true := by
  set blob := encrypt_desc_data d.plaintext_data.blinded_kp.pk salt
    (encode_inner d now) with hblob
  set pre := joinLines (descPrefixLines d blob) with hpredef
  set sig := ed25519_sign_prefixed d.plaintext_data.signing_kp.pk
    HS_DESC_SIG_PREFIX pre with hsig
  have hs : hs_desc_encode_descriptor d salt now =
      (if (pre ++ strB "signature " ++ b64e sig ++ [10]).length ≤
        HS_DESC_MAX_LEN then
        some (pre ++ strB "signature " ++ b64e sig ++ [10]) else none) := rfl
  have hsiglen : sig.length = 64 := by
    rw [hsig]
    exact ed25519_sig_bytes_length _ _
  have hb64 : 3 * (b64e sig).length ≤ 262 := by
    have h := b64e_length_le3 sig
    rw [hsiglen] at h
    omega
  have hstr : (strB "signature ").length = 10 := by decide
  have hlen : (pre ++ strB "signature " ++ b64e sig ++ [10]).length ≤
      HS_DESC_MAX_LEN := by
    simp only [List.length_append, List.length_cons, List.length_nil]
    omega
  rw [hs, if_pos hlen]
  rfl

theorem sample_pre_len :
    (joinLines (descPrefixLines sampleDesc
      (encrypt_desc_data sampleDesc.plaintext_data.blinded_kp.pk sampleSalt
        (encode_inner sampleDesc 1000)))).length + 98 ≤ HS_DESC_MAX_LEN := by
  set blob := encrypt_desc_data sampleDesc.plaintext_data.blinded_kp.pk
    sampleSalt (encode_inner sampleDesc 1000) with hblob
  have hil : (encode_inner sampleDesc 1000).length ≤
      HS_DESC_PADDED_PLAINTEXT_MAX_LEN := by decide
  have hP := compute_padded_max _ hil
  have hbl : blob.length ≤ 30048 := by
    rw [hblob, encrypt_desc_data_length _ _ _ (by decide)]
    have h1 : HS_DESC_ENCRYPTED_SALT_LEN = 16 := rfl
    have h2 : DIGEST256_LEN = 32 := rfl
    have h3 : HS_DESC_PADDED_PLAINTEXT_MAX_LEN = 30000 := rfl
    omega
  have hb2 : (b64pad blob).length ≤ 40100 := by
    have h := b64pad_length_le3 blob
    omega
  have hb1 : (b64pad (tor_cert_encode_bytes
      sampleDesc.plaintext_data.signing_key_cert)).length ≤ 300 := by
    have hcl : (tor_cert_encode_bytes
        sampleDesc.plaintext_data.signing_key_cert).length ≤ 200 := by decide
    have h := b64pad_length_le3 (tor_cert_encode_bytes
      sampleDesc.plaintext_data.signing_key_cert)
    omega
  have hlines : descPrefixLines sampleDesc blob =
      [strB "hs-descriptor " ++ natToDec sampleDesc.plaintext_data.version,
       strB "descriptor-lifetime " ++
         natToDec (sampleDesc.plaintext_data.lifetime_sec / 60),
       strB "descriptor-signing-key-cert",
       strB "-----BEGIN ED25519 CERT-----",
       b64pad (tor_cert_encode_bytes
         sampleDesc.plaintext_data.signing_key_cert),
       strB "-----END ED25519 CERT-----",
       strB "revision-counter " ++
         natToDec sampleDesc.plaintext_data.revision_counter,
       strB "encrypted",
       strB "-----BEGIN MESSAGE-----",
       b64pad blob,
       strB "-----END MESSAGE-----"] := by
    simp [descPrefixLines, pemLines]
  rw [hlines]
  simp only [joinLines, List.flatMap_cons, List.flatMap_nil,
    List.append_nil, List.length_append, List.length_cons, List.length_nil]
  have a1 : (strB "hs-descriptor ").length ≤ 20 := by decide
  have a2 : (natToDec sampleDesc.plaintext_data.version).length ≤ 20 := by
    decide
  have a3 : (strB "descriptor-lifetime ").length ≤ 20 := by decide
  have a4 : (natToDec (sampleDesc.plaintext_data.lifetime_sec / 60)).length ≤
      20 := by decide
  have a5 : (strB "descriptor-signing-key-cert").length ≤ 30 := by decide
  have a6 : (strB "-----BEGIN ED25519 CERT-----").length ≤ 30 := by decide
  have a7 : (strB "-----END ED25519 CERT-----").length ≤ 30 := by decide
  have a8 : (strB "revision-counter ").length ≤ 20 := by decide
  have a9 : (natToDec sampleDesc.plaintext_data.revision_counter).length ≤
      20 := by decide
  have a10 : (strB "encrypted").length ≤ 10 := by decide
  have a11 : (strB "-----BEGIN MESSAGE-----").length ≤ 25 := by decide
  have a12 : (strB "-----END MESSAGE-----").length ≤ 25 := by decide
  have h50 : HS_DESC_MAX_LEN = 50000 := rfl
  omega

/-- Witness for C1 at a concrete descriptor: one curve25519 introduction
point with three link specifiers, an authentication-type list, and a
fresh signing-key certificate; the encoder succeeds and the decoder
returns the descriptor with the secret key halves emptied. -/
theorem hs_desc_encode_decode_descriptor_w :
    ∃ t, hs_desc_encode_descriptor sampleDesc sampleSalt 1000 = some t ∧
      hs_desc_decode_descriptor t none 1000 = some (stripSecrets sampleDesc) := by
  have hsome : (hs_desc_encode_descriptor sampleDesc sampleSalt 1000).isSome =
      true := hs_desc_encode_isSome sampleDesc sampleSalt 1000 sample_pre_len
  cases henc : hs_desc_encode_descriptor sampleDesc sampleSalt 1000 with
  | none =>
    rw [henc] at hsome
    simp at hsome
  | some t =>
    exact ⟨t, rfl, hs_desc_encode_decode_descriptor sampleDesc sampleSalt 1000
      none t (by decide) (by decide) henc⟩
